import Mathlib

/-!
# Shiori bookmark store: `internal/database/sqlite.go`

A shallow embedding of the SQLite-backed bookmark store.  The database is a
record of row lists, one list per table of the schema created by
`OpenSQLiteDatabase`; every SQL statement the Go code prepares is a function
on that record; `MustExec` panics are the `Except.error` results, and the
deferred `recover` + `tx.Rollback()` is the return to the state the
transaction started from.

Values taken as parameters, because they come from outside the package:
* `toLower : Char → Char`, the rune mapping of `strings.ToLower`
  (`unicode.ToLower`);
* `now : String`, the formatted result of `time.Now().UTC()`;
* an `Engine`: the text predicates `LIKE` and `MATCH` of SQLite, the number of
  values a statement may bind, and the error SQLite raises, if any, when it
  evaluates the keyword fragment of a query.

Go strings are modelled by `String`, Go `int` and SQLite `INTEGER` by `Int`
(the 64-bit bound is explicit where the code depends on it: row-id allocation
and `MAX(id) + 1`).
-/

namespace Shiori

/-! ## Data model -/

/-- Errors: values built by `fmt.Errorf`, the sentinel `sql.ErrNoRows`, and
errors reported by the storage engine or the driver. -/
inductive Error where
  | errorf (msg : String)
  | errNoRows
  | engine (msg : String)
deriving DecidableEq

/-- The fields of `model.Tag` used by the store. -/
structure Tag where
  ID : Int
  Name : String
  Deleted : Bool
deriving DecidableEq

/-- The fields of `model.Bookmark` used by the store. -/
structure Bookmark where
  ID : Int
  URL : String
  Title : String
  Excerpt : String
  Author : String
  Modified : String
  Content : String
  HTML : String
  HasContent : Bool
  Tags : List Tag
deriving DecidableEq

/-- The fields of `GetBookmarksOptions`. -/
structure GetBookmarksOptions where
  IDs : List Int
  Keyword : String
  Tags : List String
  WithContent : Bool
  OrderLatest : Bool
  Limit : Int
  Offset : Int
deriving DecidableEq

/-- A row of table `account(id, username, password)`. -/
structure AccountRow where
  id : Int
  username : String
  password : String
deriving DecidableEq

/-- A row of table `bookmark(id, url, title, excerpt, author, modified)`. -/
structure BookmarkRow where
  id : Int
  url : String
  title : String
  excerpt : String
  author : String
  modified : String
deriving DecidableEq

/-- A row of table `tag(id, name)`. -/
structure TagRow where
  id : Int
  name : String
deriving DecidableEq

/-- A row of table `bookmark_tag(bookmark_id, tag_id)`. -/
structure BookmarkTagRow where
  bookmark_id : Int
  tag_id : Int
deriving DecidableEq

/-- A row of the FTS4 table `bookmark_content(docid, title, content, html)`. -/
structure ContentRow where
  docid : Int
  title : String
  content : String
  html : String
deriving DecidableEq

/-- The database: the five tables created by `OpenSQLiteDatabase`.  The order
of a list stands for the scan order of the engine. -/
structure Store where
  account : List AccountRow
  bookmark : List BookmarkRow
  tag : List TagRow
  bookmark_tag : List BookmarkTagRow
  bookmark_content : List ContentRow
deriving DecidableEq

/-- The database right after `OpenSQLiteDatabase` on a new file. -/
def emptyStore : Store :=
  { account := [], bookmark := [], tag := [], bookmark_tag := [], bookmark_content := [] }

/-- The largest 64-bit signed integer: the largest SQLite row id and the
largest Go `int`. -/
def maxInt64 : Int := 9223372036854775807

/-! ## Tag name normalisation (`strings.ToLower`, `strings.Fields`, `strings.Join`) -/

/-- `unicode.IsSpace`: the code points with the White_Space property. -/
def isSpace (c : Char) : Bool :=
  let n := c.toNat
  (9 ≤ n && n ≤ 13) || n == 32 || n == 0x85 || n == 0xA0 || n == 0x1680 ||
    (0x2000 ≤ n && n ≤ 0x200A) || n == 0x2028 || n == 0x2029 || n == 0x202F ||
    n == 0x205F || n == 0x3000

/-- The loop of `strings.Fields`: `cur` is the field being read, reversed. -/
def fieldsAux : List Char → List Char → List (List Char)
  | [], cur => if cur = [] then [] else [cur.reverse]
  | c :: cs, cur =>
    if isSpace c then
      (if cur = [] then fieldsAux cs [] else cur.reverse :: fieldsAux cs [])
    else fieldsAux cs (c :: cur)

/-- `strings.Fields` on the runes of a string. -/
def fields (s : List Char) : List (List Char) := fieldsAux s []

/-- The two lines under "Normalize tag name":
`strings.Join(strings.Fields(strings.ToLower(name)), " ")`. -/
def normalizeTagName (toLower : Char → Char) (name : String) : String :=
  String.mk (List.intercalate [' '] (fields (name.data.map toLower)))

/-! ### The canonical form in the words of the specification -/

/-- "Every whitespace run collapsed to one space": a white-space character
followed by another one is dropped, the last one of a run becomes a space. -/
def collapseRuns : List Char → List Char
  | [] => []
  | c :: cs =>
    if isSpace c then
      match cs with
      | [] => [' ']
      | d :: _ => if isSpace d then collapseRuns cs else ' ' :: collapseRuns cs
    else c :: collapseRuns cs

/-- "Ends trimmed": white space removed from both ends. -/
def trimEnds (l : List Char) : List Char :=
  ((l.dropWhile isSpace).reverse.dropWhile isSpace).reverse

/-- The canonical form of a tag name in the words of section 4.2:
lower-cased, every run of white space collapsed to one space, ends trimmed. -/
def canonicalTagName (toLower : Char → Char) (name : String) : String :=
  String.mk (trimEnds (collapseRuns (name.data.map toLower)))

/-! ## The prepared statements of `SaveBookmarks` -/

/-- Statement `stmtInsertBook`:
`INSERT INTO bookmark (id, url, title, excerpt, author, modified) VALUES (?,?,?,?,?,?)
ON CONFLICT(id) DO UPDATE SET url = ?, title = ?, excerpt = ?, author = ?, modified = ?`.
A row with the same id is overwritten with the second group of values; a
different row with the same url is a violation of `bookmark_url_UNIQUE`. -/
def stmtInsertBook (s : Store) (id : Int) (url title excerpt author modified : String)
    (url2 title2 excerpt2 author2 modified2 : String) : Except Error Store :=
  if s.bookmark.any (fun r => r.id = id) then
    if s.bookmark.any (fun r => r.id ≠ id && r.url = url2) then
      .error (.engine "UNIQUE constraint failed: bookmark.url")
    else
      .ok { s with bookmark := s.bookmark.map (fun r =>
              if r.id = id then
                { id := id, url := url2, title := title2, excerpt := excerpt2,
                  author := author2, modified := modified2 }
              else r) }
  else if s.bookmark.any (fun r => r.url = url) then
    .error (.engine "UNIQUE constraint failed: bookmark.url")
  else
    .ok { s with bookmark := s.bookmark ++
            [{ id := id, url := url, title := title, excerpt := excerpt,
               author := author, modified := modified }] }

/-- Statement `stmtUpdateBookContent`:
`UPDATE bookmark_content SET title = ?, content = ?, html = ? WHERE docid = ?`. -/
def stmtUpdateBookContent (s : Store) (title content html : String) (docid : Int) : Store :=
  { s with bookmark_content := s.bookmark_content.map (fun c =>
      if c.docid = docid then
        { docid := docid, title := title, content := content, html := html }
      else c) }

/-- Statement `stmtInsertBookContent`:
`INSERT OR IGNORE INTO bookmark_content (docid, title, content, html) VALUES (?,?,?,?)`. -/
def stmtInsertBookContent (s : Store) (docid : Int) (title content html : String) : Store :=
  if s.bookmark_content.any (fun c => c.docid = docid) then s
  else { s with bookmark_content := s.bookmark_content ++
           [{ docid := docid, title := title, content := content, html := html }] }

/-- Statement `stmtGetTag` run through `Get(&tag.ID, tagName)`:
`SELECT id FROM tag WHERE name = ?`.  Returns the value left in `tag.ID`
(which was 0 before the call) and the error of `Get`. -/
def stmtGetTag (s : Store) (name : String) : Int × Option Error :=
  match s.tag.find? (fun t => t.name = name) with
  | some t => (t.id, none)
  | none => (0, some .errNoRows)

/-- The row id SQLite gives to a row inserted without one: 1 in an empty
table, otherwise the largest row id plus one.  When the largest row id is
already the largest 64-bit integer the engine probes unused ids at random;
that branch is reported as a full table here. -/
def newRowid (ids : List Int) : Except Error Int :=
  match ids.max? with
  | none => .ok 1
  | some m => if m < maxInt64 then .ok (m + 1) else .error (.engine "database or disk is full")

/-- Statement `stmtInsertTag` followed by `res.LastInsertId()`:
`INSERT INTO tag (name) VALUES (?)`; `id` is the row id (INTEGER PRIMARY KEY). -/
def stmtInsertTag (s : Store) (name : String) : Except Error (Store × Int) :=
  if s.tag.any (fun t => t.name = name) then
    .error (.engine "UNIQUE constraint failed: tag.name")
  else
    match newRowid (s.tag.map (·.id)) with
    | .error e => .error e
    | .ok id => .ok ({ s with tag := s.tag ++ [{ id := id, name := name }] }, id)

/-- Statement `stmtInsertBookTag`:
`INSERT OR IGNORE INTO bookmark_tag (tag_id, bookmark_id) VALUES (?, ?)`. -/
def stmtInsertBookTag (s : Store) (tag_id bookmark_id : Int) : Store :=
  if s.bookmark_tag.any (fun r => r.bookmark_id = bookmark_id && r.tag_id = tag_id) then s
  else { s with bookmark_tag := s.bookmark_tag ++
           [{ bookmark_id := bookmark_id, tag_id := tag_id }] }

/-- Statement `stmtDeleteBookTag`:
`DELETE FROM bookmark_tag WHERE bookmark_id = ? AND tag_id = ?`. -/
def stmtDeleteBookTag (s : Store) (bookmark_id tag_id : Int) : Store :=
  { s with bookmark_tag := s.bookmark_tag.filter (fun r =>
      !(r.bookmark_id = bookmark_id && r.tag_id = tag_id)) }

/-- Modelled from the spec: `checkError`, called by `SaveBookmarks` and declared
outside the shown file.  Section 4.2 has a name that resolves to no row
continue to the insertion of a new tag row, so the no-rows result of a lookup
is let through and every other error is raised. -/
def checkError : Option Error → Except Error Unit
  | none => .ok ()
  | some .errNoRows => .ok ()
  | some e => .error e

/-! ## `SaveBookmarks` -/

/-- The body of `for _, tag := range book.Tags`: the new store and the tag
appended to `newTags`, if any. -/
def saveTag (toLower : Char → Char) (bookID : Int) (s : Store) (tag : Tag) :
    Except Error (Store × Option Tag) :=
  if tag.Deleted then
    .ok (stmtDeleteBookTag s bookID tag.ID, none)
  else
    let tagName := normalizeTagName toLower tag.Name
    if tag.ID = 0 then
      let got := stmtGetTag s tagName
      match checkError got.2 with
      | .error e => .error e
      | .ok _ =>
        if got.1 = 0 then
          match stmtInsertTag s tagName with
          | .error e => .error e
          | .ok (s1, id) => .ok (stmtInsertBookTag s1 id bookID, some { tag with ID := id })
        else
          .ok (stmtInsertBookTag s got.1 bookID, some { tag with ID := got.1 })
    else
      .ok (s, some tag)

/-- The loop `for _, tag := range book.Tags`, returning `newTags`. -/
def saveTags (toLower : Char → Char) (bookID : Int) : Store → List Tag →
    Except Error (Store × List Tag)
  | s, [] => .ok (s, [])
  | s, tag :: rest =>
    match saveTag toLower bookID s tag with
    | .error e => .error e
    | .ok (s1, t) =>
      match saveTags toLower bookID s1 rest with
      | .error e => .error e
      | .ok (s2, ts) => .ok (s2, t.toList ++ ts)

/-- The body of `for _, book := range bookmarks`: the new store and the
bookmark appended to `result`. -/
def saveBook (toLower : Char → Char) (now : String) (s : Store) (book : Bookmark) :
    Except Error (Store × Bookmark) :=
  if book.ID = 0 then .error (.errorf "ID must not be empty")
  else if book.URL = "" then .error (.errorf "URL must not be empty")
  else if book.Title = "" then .error (.errorf "title must not be empty")
  else
    let book := { book with Modified := now }
    match stmtInsertBook s book.ID book.URL book.Title book.Excerpt book.Author book.Modified
        book.URL book.Title book.Excerpt book.Author book.Modified with
    | .error e => .error e
    | .ok s1 =>
      let s2 := stmtUpdateBookContent s1 book.Title book.Content book.HTML book.ID
      let s3 := stmtInsertBookContent s2 book.ID book.Title book.Content book.HTML
      match saveTags toLower book.ID s3 book.Tags with
      | .error e => .error e
      | .ok (s4, newTags) => .ok (s4, { book with Tags := newTags })

/-- The loop `for _, book := range bookmarks`, returning `result`. -/
def saveBooks (toLower : Char → Char) (now : String) : Store → List Bookmark →
    Except Error (Store × List Bookmark)
  | s, [] => .ok (s, [])
  | s, book :: rest =>
    match saveBook toLower now s book with
    | .error e => .error e
    | .ok (s1, b) =>
      match saveBooks toLower now s1 rest with
      | .error e => .error e
      | .ok (s2, bs) => .ok (s2, b :: bs)

/-- Function `SaveBookmarks`: the transaction runs on a copy of the database; a
panic is recovered into `(empty result, error)` with the database rolled back,
otherwise the copy is committed.  The result is `((result, err), database)`.
Opening and committing the transaction succeed here: a failure of the
connection itself is left out. -/
def SaveBookmarks (toLower : Char → Char) (now : String) (db : Store)
    (bookmarks : List Bookmark) : (List Bookmark × Option Error) × Store :=
  match saveBooks toLower now db bookmarks with
  | .error e => (([], some e), db)
  | .ok (tx, result) => ((result, none), tx)

/-! ## The query builder and reader: `GetBookmarks`, `GetBookmarksCount` -/

/-- An element of `args`: a scalar or a slice. -/
inductive Arg where
  | int (v : Int)
  | text (v : String)
  | ints (v : List Int)
  | texts (v : List String)
deriving DecidableEq

/-- The SQL fragments the builders append to `... WHERE 1`:
* `idIn`: `AND b.id IN (?)`
* `keyword`: `AND (b.url LIKE ? OR b.id IN (SELECT docid id FROM bookmark_content
  WHERE title MATCH ? OR content MATCH ?))`
* `tagIn`: `AND b.id IN (SELECT bookmark_id FROM bookmark_tag WHERE tag_id IN
  (SELECT id FROM tag WHERE name IN (?)))`
* `orderLatest`: `ORDER BY b.modified DESC`
* `limitOffset`: `LIMIT ? OFFSET ?` -/
inductive Clause where
  | idIn
  | keyword
  | tagIn
  | orderLatest
  | limitOffset
deriving DecidableEq

/-- A fragment with its parameters bound. -/
inductive Pred where
  | idIn (ids : List Int)
  | keyword (pattern q1 q2 : String)
  | tagIn (names : List String)
  | orderLatest
  | limitOffset (limit offset : Int)
deriving DecidableEq

/-- Whether a fragment is the keyword fragment. -/
def Pred.isKeyword : Pred → Bool
  | .keyword _ _ _ => true
  | _ => false

/-- Whether a fragment is `ORDER BY b.modified DESC`. -/
def Pred.isOrder : Pred → Bool
  | .orderLatest => true
  | _ => false

/-- Whether a fragment is `LIMIT ? OFFSET ?`. -/
def Pred.isLimit : Pred → Bool
  | .limitOffset _ _ => true
  | _ => false

/-- The storage engine, as far as the queries depend on it.
* `like pattern text` is `text LIKE pattern`; `ftsMatch text query` is
  `column MATCH query` on an indexed column holding `text`.
* `maxVariables` is the number of values one statement may bind
  (`SQLITE_MAX_VARIABLE_NUMBER`: 999 by default, 32766 in newer releases; the
  package never lowers it).
* `keywordError db fragments` is the error, if any, that SQLite raises when it
  evaluates the keyword fragment of a statement while scanning the rows (a
  malformed `MATCH` expression, a `LIKE` pattern that is too long).  It is
  given the database and the fragments that decide which rows the scan
  evaluates. -/
structure Engine where
  like : String → String → Bool
  ftsMatch : String → String → Bool
  maxVariables : Nat
  maxVariables_ge : 999 ≤ maxVariables
  keywordError : Store → List Pred → Option Error

/-- The number of values the expanded statement binds. -/
def boundValues : List Pred → Nat
  | [] => 0
  | .idIn ids :: ps => ids.length + boundValues ps
  | .keyword _ _ _ :: ps => 3 + boundValues ps
  | .tagIn names :: ps => names.length + boundValues ps
  | .orderLatest :: ps => boundValues ps
  | .limitOffset _ _ :: ps => 2 + boundValues ps

/-- The fragments that decide which rows the scan evaluates: all of them when
the statement has a `LIMIT`, and otherwise all but `ORDER BY`, which then only
sorts rows that were scanned anyway. -/
def scanPart (ps : List Pred) : List Pred :=
  if ps.any Pred.isLimit then ps else ps.filter (fun p => !p.isOrder)

/-- The error of running the SELECT statement through `db.Select` or `db.Get`,
if any: too many bound values, or an error in the evaluation of the keyword
fragment.  (A failure of the connection itself is left out.) -/
def stmtError (E : Engine) (s : Store) (ps : List Pred) : Option Error :=
  if E.maxVariables < boundValues ps then some (.engine "too many SQL variables")
  else if ps.any Pred.isKeyword then E.keywordError s (scanPart ps)
  else none

/-- The expansion of `sqlx.In` followed by the positional binding of the
expanded arguments: every `(?)` takes one slice, which must not be empty,
and every other `?` takes one scalar, in order. -/
def bindQuery : List Clause → List Arg → Except Error (List Pred)
  | [], args =>
    match args with
    | [] => .ok []
    | _ :: _ => .error (.engine "number of bindVars less than number arguments")
  | c :: q, args =>
    match c with
    | .idIn =>
      match args with
      | .ints ids :: rest =>
        if ids = [] then .error (.engine "empty slice passed to in query")
        else (bindQuery q rest).map (fun ps => Pred.idIn ids :: ps)
      | _ => .error (.engine "bind mismatch")
    | .keyword =>
      match args with
      | .text p :: .text q1 :: .text q2 :: rest =>
        (bindQuery q rest).map (fun ps => Pred.keyword p q1 q2 :: ps)
      | _ => .error (.engine "bind mismatch")
    | .tagIn =>
      match args with
      | .texts names :: rest =>
        if names = [] then .error (.engine "empty slice passed to in query")
        else (bindQuery q rest).map (fun ps => Pred.tagIn names :: ps)
      | _ => .error (.engine "bind mismatch")
    | .orderLatest => (bindQuery q args).map (fun ps => Pred.orderLatest :: ps)
    | .limitOffset =>
      match args with
      | .int l :: .int o :: rest =>
        (bindQuery q rest).map (fun ps => Pred.limitOffset l o :: ps)
      | _ => .error (.engine "bind mismatch")

/-- A row of `bookmark b LEFT JOIN bookmark_content bc ON bc.docid = b.id`. -/
structure JoinedRow where
  b : BookmarkRow
  bc : Option ContentRow
deriving DecidableEq

/-- The rows one bookmark row contributes to the LEFT JOIN: one per matching
shadow row, or one with NULL shadow columns when there is none. -/
def joinOne (content : List ContentRow) (b : BookmarkRow) : List JoinedRow :=
  match content.filter (fun c => c.docid = b.id) with
  | [] => [{ b := b, bc := none }]
  | cs => cs.map (fun c => { b := b, bc := some c })

/-- The rows of `bookmark b LEFT JOIN bookmark_content bc ON bc.docid = b.id`. -/
def joinedRows (s : Store) : List JoinedRow :=
  s.bookmark.flatMap (joinOne s.bookmark_content)

/-- Truth of one bound WHERE fragment on a bookmark row. -/
def holds (E : Engine) (s : Store) (b : BookmarkRow) : Pred → Bool
  | .idIn ids => ids.contains b.id
  | .keyword p q1 q2 =>
    E.like p b.url ||
      s.bookmark_content.any (fun c =>
        c.docid = b.id && (E.ftsMatch c.title q1 || E.ftsMatch c.content q2))
  | .tagIn names =>
    s.bookmark_tag.any (fun bt =>
      bt.bookmark_id = b.id &&
        s.tag.any (fun t => t.id = bt.tag_id && names.contains t.name))
  | .orderLatest => true
  | .limitOffset _ _ => true

/-- The rows that pass the WHERE clause. -/
def whereRows (E : Engine) (s : Store) (ps : List Pred) : List JoinedRow :=
  (joinedRows s).filter (fun r => ps.all (holds E s r.b))

/-- Comparison of two texts under the BINARY collation. -/
def textLE : List Char → List Char → Bool
  | [], _ => true
  | _ :: _, [] => false
  | a :: as, b :: bs => a.toNat < b.toNat || (a.toNat = b.toNat && textLE as bs)

/-- Instance deciding the order used by `ORDER BY b.modified DESC`. -/
instance modifiedDescDecidable :
    DecidableRel (fun x y : JoinedRow => textLE y.b.modified.data x.b.modified.data = true) :=
  fun _ _ => inferInstance

/-- `ORDER BY b.modified DESC` when the fragment is present (the order among
equal timestamps is the choice of the engine). -/
def orderRows (ps : List Pred) (rows : List JoinedRow) : List JoinedRow :=
  if ps.contains Pred.orderLatest then
    rows.insertionSort (fun x y => textLE y.b.modified.data x.b.modified.data = true)
  else rows

/-- `LIMIT ? OFFSET ?` when the fragment is present: a negative limit is no
limit, a negative offset is 0. -/
def limitRows : List Pred → List JoinedRow → List JoinedRow
  | [], rows => rows
  | .limitOffset l o :: _, rows =>
    if l < 0 then rows.drop o.toNat else (rows.drop o.toNat).take l.toNat
  | _ :: ps, rows => limitRows ps rows

/-- The rows returned by the SELECT statement of `GetBookmarks`. -/
def selectRows (E : Engine) (s : Store) (ps : List Pred) : List JoinedRow :=
  limitRows ps (orderRows ps (whereRows E s ps))

/-- The scan of one result row into a `model.Bookmark`: the columns are
`b.id, b.url, b.title, b.excerpt, b.author, b.modified, bc.content <> ""
has_content` and, with `WithContent`, `bc.content, bc.html`.  A bookmark
without a `bookmark_content` row has NULL in the `bc` columns, which does
not scan into a Go `bool` or `string`. -/
def scanBookmark (withContent : Bool) (r : JoinedRow) : Except Error Bookmark :=
  match r.bc with
  | none => .error (.engine "converting NULL is unsupported")
  | some c =>
    .ok { ID := r.b.id, URL := r.b.url, Title := r.b.title, Excerpt := r.b.excerpt,
          Author := r.b.author, Modified := r.b.modified,
          Content := if withContent then c.content else "",
          HTML := if withContent then c.html else "",
          HasContent := decide (c.content ≠ ""),
          Tags := [] }

/-- Apply a fallible function to every element, stopping at the first error. -/
def mapExcept {α β : Type} (f : α → Except Error β) : List α → Except Error (List β)
  | [] => .ok []
  | a :: as =>
    match f a with
    | .error e => .error e
    | .ok b =>
      match mapExcept f as with
      | .error e => .error e
      | .ok bs => .ok (b :: bs)

/-- Instance deciding the order used by `ORDER BY t.name`. -/
instance tagNameDecidable :
    DecidableRel (fun x y : Tag => textLE x.Name.data y.Name.data = true) :=
  fun _ _ => inferInstance

/-- Statement `stmtGetTags` run through `Select(&book.Tags, book.ID)`:
`SELECT t.id, t.name FROM bookmark_tag bt LEFT JOIN tag t ON bt.tag_id = t.id
WHERE bt.bookmark_id = ? ORDER BY t.name`.  An association whose tag row is
missing gives NULL columns, which do not scan into a `model.Tag`. -/
def stmtGetTags (s : Store) (bookID : Int) : Except Error (List Tag) :=
  match mapExcept (fun (bt : BookmarkTagRow) =>
      match s.tag.filter (fun t => t.id = bt.tag_id) with
      | [] => (.error (.engine "converting NULL to int is unsupported") : Except Error (List Tag))
      | ts => .ok (ts.map (fun t => { ID := t.id, Name := t.name, Deleted := false })))
      (s.bookmark_tag.filter (fun bt => bt.bookmark_id = bookID)) with
  | .error e => .error e
  | .ok tss => .ok (tss.flatten.insertionSort (fun x y => textLE x.Name.data y.Name.data = true))

/-- The query assembly of `GetBookmarks`, from "Add where clause" to the
`LIMIT` fragment: the fragments appended to `query` and the values appended
to `args`. -/
def buildGetBookmarks (opts : GetBookmarksOptions) : List Clause × List Arg :=
  let query : List Clause := []
  let args : List Arg := []
  let (query, args) :=
    if opts.IDs.length > 0 then (query ++ [Clause.idIn], args ++ [Arg.ints opts.IDs])
    else (query, args)
  let (query, args) :=
    if opts.Keyword ≠ "" then
      (query ++ [Clause.keyword],
        args ++ [Arg.text ("%" ++ opts.Keyword ++ "%"), Arg.text opts.Keyword,
                 Arg.text opts.Keyword])
    else (query, args)
  let (query, args) :=
    if opts.Tags.length > 0 then (query ++ [Clause.tagIn], args ++ [Arg.texts opts.Tags])
    else (query, args)
  let query := if opts.OrderLatest then query ++ [Clause.orderLatest] else query
  let (query, args) :=
    if opts.Limit > 0 && opts.Offset ≥ 0 then
      (query ++ [Clause.limitOffset], args ++ [Arg.int opts.Limit, Arg.int opts.Offset])
    else (query, args)
  (query, args)

/-- The body of `for i, book := range bookmarks`: attach the tag list. -/
def attachTags (db : Store) (book : Bookmark) : Except Error Bookmark :=
  match stmtGetTags db book.ID with
  | .error e => .error e
  | .ok tags => .ok { book with Tags := tags }

/-- The part of `GetBookmarks` after the query is expanded: `db.Select` fails
when the statement does (`stmtError`) or when a row does not scan; then the
tags of each bookmark are fetched; `(nil, err)` is `([], some err)`.
Preparing the tag statement succeeds here. -/
def fetchBookmarks (E : Engine) (db : Store) (withContent : Bool) (ps : List Pred) :
    List Bookmark × Option Error :=
  match stmtError E db ps with
  | some _ => ([], some (.errorf "failed to fetch data"))
  | none =>
    match mapExcept (scanBookmark withContent) (selectRows E db ps) with
    | .error _ => ([], some (.errorf "failed to fetch data"))
    | .ok bookmarks =>
      match mapExcept (attachTags db) bookmarks with
      | .error _ => ([], some (.errorf "failed to fetch tags"))
      | .ok bookmarks => (bookmarks, none)

/-- Function `GetBookmarks`. -/
def GetBookmarks (E : Engine) (db : Store) (opts : GetBookmarksOptions) :
    List Bookmark × Option Error :=
  let (query, args) := buildGetBookmarks opts
  match bindQuery query args with
  | .error _ => ([], some (.errorf "failed to expand query"))
  | .ok ps => fetchBookmarks E db opts.WithContent ps

/-- The query assembly of `GetBookmarksCount`: the fragments appended to
`query` and the values appended to `args`. -/
def buildGetBookmarksCount (opts : GetBookmarksOptions) : List Clause × List Arg :=
  let query : List Clause := []
  let args : List Arg := []
  let (query, args) :=
    if opts.IDs.length > 0 then (query ++ [Clause.idIn], args ++ [Arg.ints opts.IDs])
    else (query, args)
  let (query, args) :=
    if opts.Keyword ≠ "" then
      (query ++ [Clause.keyword],
        args ++ [Arg.text ("%" ++ opts.Keyword ++ "%"), Arg.text opts.Keyword,
                 Arg.text opts.Keyword])
    else (query, args)
  let (query, args) :=
    if opts.Tags.length > 0 then (query ++ [Clause.tagIn], args ++ [Arg.texts opts.Tags])
    else (query, args)
  (query, args)

/-- Function `GetBookmarksCount`: `SELECT COUNT(b.id)` over the same join and
WHERE clause (`b.id` is never NULL); `db.Get` fails when the statement does
(`stmtError`). -/
def GetBookmarksCount (E : Engine) (db : Store) (opts : GetBookmarksOptions) :
    Int × Option Error :=
  let (query, args) := buildGetBookmarksCount opts
  match bindQuery query args with
  | .error _ => (0, some (.errorf "failed to expand query"))
  | .ok ps =>
    match stmtError E db ps with
    | some _ => (0, some (.errorf "failed to fetch count"))
    | none => (((whereRows E db ps).length : Nat), none)

/-! ## `DeleteBookmarks` -/

/-- The three statements run for one id: `DELETE FROM bookmark_content WHERE
docid = ?`, `DELETE FROM bookmark_tag WHERE bookmark_id = ?`, `DELETE FROM
bookmark WHERE id = ?`. -/
def deleteOne (s : Store) (id : Int) : Store :=
  let s := { s with bookmark_content := s.bookmark_content.filter (fun c => !(c.docid = id)) }
  let s := { s with bookmark_tag := s.bookmark_tag.filter (fun r => !(r.bookmark_id = id)) }
  { s with bookmark := s.bookmark.filter (fun r => !(r.id = id)) }

/-- Function `DeleteBookmarks`: no statement of the transaction can fail, so
the result is `(nil, committed database)`. -/
def DeleteBookmarks (db : Store) (ids : List Int) : Option Error × Store :=
  if ids.length = 0 then
    let tx := { db with bookmark_content := [] }
    let tx := { tx with bookmark_tag := [] }
    (none, { tx with bookmark := [] })
  else
    (none, ids.foldl deleteOne db)

/-! ## `CreateNewID` -/

/-- The `id` column of the table a bare lower-case table name refers to in
`SELECT ... MAX(id) ... FROM <table>`: `bookmark_tag` and `bookmark_content`
have no such column and any other name is no table of the schema.  (Other
text spliced in by `%s`, such as quoted or upper-case names, is outside this
model.) -/
def idColumn (s : Store) (table : String) : Option (List Int) :=
  if table = "account" then some (s.account.map (·.id))
  else if table = "bookmark" then some (s.bookmark.map (·.id))
  else if table = "tag" then some (s.tag.map (·.id))
  else none

/-- Function `CreateNewID`: `SELECT IFNULL(MAX(id) + 1, 1) FROM <table>`
scanned into an `int`.  A sum above the 64-bit range is computed by SQLite as
a floating-point value, which does not scan into an `int`. -/
def CreateNewID (db : Store) (table : String) : Int × Option Error :=
  match idColumn db table with
  | none => (-1, some (.engine "no such table or column"))
  | some ids =>
    match ids.max? with
    | none => (1, none)
    | some m =>
      if m + 1 ≤ maxInt64 then (m + 1, none)
      else (-1, some (.engine "converting driver.Value type float64 to a int"))

/-! ## Constraints and invariants of the database -/

/-- The constraints the schema declares and the engine maintains: the primary
keys and UNIQUE columns, the foreign key from `bookmark_tag` to `tag`, and
tag ids being row ids allocated by the engine, hence positive.  Every
database reachable from the empty one satisfies them (`reachable_valid`). -/
def Valid (s : Store) : Prop :=
  (s.bookmark.map (·.id)).Nodup ∧
  (s.bookmark.map (·.url)).Nodup ∧
  (s.tag.map (·.id)).Nodup ∧
  (s.tag.map (·.name)).Nodup ∧
  s.bookmark_tag.Nodup ∧
  (s.bookmark_content.map (·.docid)).Nodup ∧
  (∀ bt ∈ s.bookmark_tag, bt.tag_id ∈ s.tag.map (·.id)) ∧
  (∀ t ∈ s.tag, 0 < t.id)

/-- Instance evaluating `Valid` on a concrete database. -/
instance validDecidable (s : Store) : Decidable (Valid s) := by
  unfold Valid; infer_instance

/-- The lifecycle invariant of section 3: a bookmark row exists exactly when
its shadow row exists (every bookmark id is a shadow docid and every shadow
docid is a bookmark id), bookmark ids are nonzero, and every association row
refers to an existing bookmark row.  Every database reachable from the empty
one satisfies it (`reachable_consistent`). -/
def Consistent (s : Store) : Prop :=
  (∀ b ∈ s.bookmark, b.id ∈ s.bookmark_content.map (·.docid)) ∧
  (∀ c ∈ s.bookmark_content, c.docid ∈ s.bookmark.map (·.id)) ∧
  (∀ b ∈ s.bookmark, b.id ≠ 0) ∧
  (∀ bt ∈ s.bookmark_tag, bt.bookmark_id ∈ s.bookmark.map (·.id))

/-- Instance evaluating `Consistent` on a concrete database. -/
instance consistentDecidable (s : Store) : Decidable (Consistent s) := by
  unfold Consistent; infer_instance

/-! ## States reachable through the write operations -/

/-- The databases obtained from a new one by `SaveBookmarks` and
`DeleteBookmarks` calls. -/
inductive Reachable (toLower : Char → Char) : Store → Prop where
  | init : Reachable toLower emptyStore
  | save (now : String) (s : Store) (bookmarks : List Bookmark) :
      Reachable toLower s → Reachable toLower (SaveBookmarks toLower now s bookmarks).2
  | delete (s : Store) (ids : List Int) :
      Reachable toLower s → Reachable toLower (DeleteBookmarks s ids).2

/-! ## Example data for the concrete instances -/

/-- An engine whose `LIKE` and `MATCH` never hold, with the default limit of
999 bound values, and for which the keyword `AND` is a malformed `MATCH`
expression. -/
def exampleEngine : Engine :=
  { like := fun _ _ => false
    ftsMatch := fun _ _ => false
    maxVariables := 999
    maxVariables_ge := Nat.le_refl 999
    keywordError := fun _ ps =>
      if ps.any (fun p => match p with
          | .keyword _ q _ => decide (q = "AND")
          | _ => false) then
        some (.engine "malformed MATCH expression")
      else none }

/-- A draft with the given id, URL, title and tags; the caller-side `Modified`
value is a date the store must not keep. -/
def exampleDraft (id : Int) (url title : String) (tags : List Tag) : Bookmark :=
  { ID := id, URL := url, Title := title, Excerpt := "excerpt of " ++ title,
    Author := "author of " ++ title, Modified := "1999-12-31 23:59:59",
    Content := "content of " ++ title, HTML := "", HasContent := false, Tags := tags }

/-- The timestamp used in the concrete instances. -/
def exampleNow : String := "2024-01-01 00:00:00"

/-! ## Auxiliary facts -/

theorem max?_spec {l : List Int} {m : Int} :
    l.max? = some m ↔ m ∈ l ∧ ∀ i ∈ l, i ≤ m :=
  @List.max?_eq_some_iff Int m _ _ ⟨fun h1 h2 => Int.le_antisymm h1 h2⟩ (fun a => le_refl a)
    (fun a b => max_choice a b) (fun _ _ _ => max_le_iff) l

theorem saveBooks_invalid (toLower : Char → Char) (now : String) :
    ∀ (bs : List Bookmark) (s : Store),
      (∃ b ∈ bs, b.ID = 0 ∨ b.URL = "" ∨ b.Title = "") →
      ∃ e, saveBooks toLower now s bs = .error e := by
  intro bs
  induction bs with
  | nil => intro s h; obtain ⟨b, hb, _⟩ := h; cases hb
  | cons b rest ih =>
    intro s h
    unfold saveBooks
    cases hsb : saveBook toLower now s b with
    | error e => exact ⟨e, rfl⟩
    | ok r =>
      obtain ⟨s1, b1⟩ := r
      obtain ⟨x, hx, hbad⟩ := h
      rcases List.mem_cons.1 hx with rfl | hx
      · exfalso
        unfold saveBook at hsb
        rcases hbad with h0 | h0 | h0 <;> simp [h0] at hsb
        · split at hsb <;> simp at hsb
        · split at hsb
          · simp at hsb
          · split at hsb <;> simp at hsb
      · obtain ⟨e, he⟩ := ih s1 ⟨x, hx, hbad⟩
        exact ⟨e, by simp [he]⟩

theorem foldl_deleteOne (ids : List Int) : ∀ s : Store,
    ids.foldl deleteOne s =
      { s with
        bookmark_content := s.bookmark_content.filter (fun c => !ids.contains c.docid)
        bookmark_tag := s.bookmark_tag.filter (fun r => !ids.contains r.bookmark_id)
        bookmark := s.bookmark.filter (fun r => !ids.contains r.id) } := by
  induction ids with
  | nil => intro s; simp
  | cons a as ih =>
    intro s
    rw [List.foldl_cons, ih]
    simp only [deleteOne, List.filter_filter, List.contains_cons]
    congr 1 <;> (apply List.filter_congr; intro x _; by_cases h : x.1 = a <;> simp [h])

theorem build_bind (opts : GetBookmarksOptions) :
    ∃ ps, bindQuery (buildGetBookmarksCount opts).1 (buildGetBookmarksCount opts).2 = .ok ps ∧
      (∀ rows, limitRows ps rows = rows) ∧
      (∀ rows, limitRows (ps ++ [Pred.orderLatest]) rows = rows) ∧
      ps.any Pred.isLimit = false ∧
      bindQuery (buildGetBookmarks { opts with Limit := 0, Offset := 0 }).1
        (buildGetBookmarks { opts with Limit := 0, Offset := 0 }).2 =
        .ok (if opts.OrderLatest then ps ++ [Pred.orderLatest] else ps) := by
  obtain ⟨ids, kw, tags, wc, ol, lim, off⟩ := opts
  cases ids <;> cases tags <;> by_cases hk : kw = "" <;> cases ol <;>
    simp [buildGetBookmarksCount, buildGetBookmarks, bindQuery, hk, Except.map, limitRows,
      Pred.isLimit]

theorem boundValues_append_order (ps : List Pred) :
    boundValues (ps ++ [Pred.orderLatest]) = boundValues ps := by
  induction ps with
  | nil => rfl
  | cons p ps ih => cases p <;> simp [boundValues, ih]

/-- Without a `LIMIT`, the `ORDER BY` fragment does not change whether the
statement fails. -/
theorem stmtError_append_order (E : Engine) (s : Store) (ps : List Pred)
    (hlim : ps.any Pred.isLimit = false) :
    stmtError E s (ps ++ [Pred.orderLatest]) = stmtError E s ps := by
  have h1 : (ps ++ [Pred.orderLatest]).any Pred.isLimit = false := by
    simp [List.any_append, hlim, Pred.isLimit]
  have h2 : (ps ++ [Pred.orderLatest]).any Pred.isKeyword = ps.any Pred.isKeyword := by
    simp [List.any_append, Pred.isKeyword]
  have h3 : scanPart (ps ++ [Pred.orderLatest]) = scanPart ps := by
    simp [scanPart, h1, hlim, List.filter_append, Pred.isOrder]
  simp only [stmtError, boundValues_append_order, h2, h3]

/-- A statement that binds at most 999 values and has no keyword fragment
does not fail. -/
theorem stmtError_none (E : Engine) (s : Store) (ps : List Pred)
    (hb : boundValues ps ≤ 999) (hk : ps.any Pred.isKeyword = false) :
    stmtError E s ps = none := by
  have := E.maxVariables_ge
  have hlt : ¬ E.maxVariables < boundValues ps := by omega
  simp [stmtError, hlt, hk]

theorem mapExcept_ok {α β : Type} (f : α → Except Error β) :
    ∀ l : List α, (∀ a ∈ l, ∃ b, f a = .ok b) →
      ∃ bs, mapExcept f l = .ok bs ∧ List.Forall₂ (fun a b => f a = .ok b) l bs := by
  intro l
  induction l with
  | nil => intro _; exact ⟨[], rfl, List.Forall₂.nil⟩
  | cons a as ih =>
    intro h
    obtain ⟨b, hb⟩ := h a (List.mem_cons_self _ _)
    obtain ⟨bs, hbs, hrel⟩ := ih (fun x hx => h x (List.mem_cons_of_mem _ hx))
    exact ⟨b :: bs, by simp [mapExcept, hb, hbs], List.Forall₂.cons hb hrel⟩

theorem stmtGetTags_ok (s : Store)
    (h : ∀ bt ∈ s.bookmark_tag, bt.tag_id ∈ s.tag.map (·.id)) (id : Int) :
    ∃ ts, stmtGetTags s id = .ok ts := by
  unfold stmtGetTags
  have hrow : ∀ bt ∈ s.bookmark_tag.filter (fun bt => bt.bookmark_id = id),
      ∃ ts, (match s.tag.filter (fun (t : TagRow) => t.id = bt.tag_id) with
        | [] => (.error (.engine "converting NULL to int is unsupported") :
            Except Error (List Tag))
        | ts => .ok (ts.map (fun (t : TagRow) =>
            ({ ID := t.id, Name := t.name, Deleted := false } : Tag)))) =
        .ok ts := by
    intro bt hbt
    have hmem := h bt (List.mem_of_mem_filter hbt)
    obtain ⟨t, ht, hid⟩ := List.mem_map.1 hmem
    cases hf : s.tag.filter (fun t => t.id = bt.tag_id) with
    | nil =>
      have := List.filter_eq_nil_iff.1 hf t ht
      simp [hid] at this
    | cons x xs => exact ⟨_, rfl⟩
  obtain ⟨tss, htss, _⟩ := mapExcept_ok _ _ hrow
  rw [htss]
  exact ⟨_, rfl⟩

theorem mem_joinedRows {s : Store} {r : JoinedRow} (h : r ∈ joinedRows s) :
    r.b ∈ s.bookmark ∧
      ((r.bc = none ∧ ∀ c ∈ s.bookmark_content, c.docid ≠ r.b.id) ∨
       (∃ c, r.bc = some c ∧ c ∈ s.bookmark_content ∧ c.docid = r.b.id)) := by
  unfold joinedRows at h
  obtain ⟨b, hb, hr⟩ := List.mem_flatMap.1 h
  unfold joinOne at hr
  cases hf : s.bookmark_content.filter (fun c => c.docid = b.id) with
  | nil =>
    rw [hf] at hr
    simp only [List.mem_singleton] at hr
    subst hr
    refine ⟨hb, Or.inl ⟨rfl, ?_⟩⟩
    intro c hc
    have := List.filter_eq_nil_iff.1 hf c hc
    simpa using this
  | cons x xs =>
    rw [hf] at hr
    obtain ⟨c, hc, hrc⟩ := List.mem_map.1 hr
    subst hrc
    have hc2 : c ∈ s.bookmark_content.filter (fun c => c.docid = b.id) := by rw [hf]; exact hc
    have := List.mem_filter.1 hc2
    exact ⟨hb, Or.inr ⟨c, rfl, this.1, by simpa using this.2⟩⟩

theorem mem_limitRows {r : JoinedRow} : ∀ (ps : List Pred) (rows : List JoinedRow),
    r ∈ limitRows ps rows → r ∈ rows := by
  intro ps
  induction ps with
  | nil => intro rows h; exact h
  | cons p ps ih =>
    intro rows h
    cases p with
    | limitOffset l o =>
      simp only [limitRows] at h
      split at h
      · exact List.mem_of_mem_drop h
      · exact List.mem_of_mem_drop (List.mem_of_mem_take h)
    | idIn ids => exact ih rows h
    | keyword p q1 q2 => exact ih rows h
    | tagIn names => exact ih rows h
    | orderLatest => exact ih rows h

theorem mem_orderRows {r : JoinedRow} {ps : List Pred} {rows : List JoinedRow} :
    r ∈ orderRows ps rows ↔ r ∈ rows := by
  unfold orderRows
  split
  · exact (List.perm_insertionSort _ rows).mem_iff
  · exact Iff.rfl

theorem length_orderRows (ps : List Pred) (rows : List JoinedRow) :
    (orderRows ps rows).length = rows.length := by
  unfold orderRows
  split
  · exact List.length_insertionSort _ rows
  · rfl

theorem mem_selectRows {E : Engine} {s : Store} {ps : List Pred} {r : JoinedRow}
    (h : r ∈ selectRows E s ps) : r ∈ joinedRows s := by
  unfold selectRows at h
  have h1 := mem_orderRows.1 (mem_limitRows ps _ h)
  exact List.mem_of_mem_filter h1

theorem whereRows_append_order (E : Engine) (s : Store) (ps : List Pred) :
    whereRows E s (ps ++ [Pred.orderLatest]) = whereRows E s ps := by
  unfold whereRows
  apply List.filter_congr
  intro r _
  simp [List.all_append, holds]

theorem selectRows_some {E : Engine} {s : Store} {ps : List Pred}
    (hshadow : ∀ b ∈ s.bookmark, b.id ∈ s.bookmark_content.map (·.docid)) :
    ∀ r ∈ selectRows E s ps, ∃ c, r.bc = some c := by
  intro r hr
  obtain ⟨hb, hcase⟩ := mem_joinedRows (mem_selectRows hr)
  rcases hcase with ⟨_, hnone⟩ | ⟨c, hc, _⟩
  · obtain ⟨c, hc, hid⟩ := List.mem_map.1 (hshadow r.b hb)
    exact absurd hid (hnone c hc)
  · exact ⟨c, hc⟩

/-- The result of `fetchBookmarks` when the statement does not fail, every
selected row has a shadow row and every association refers to a tag row: one
bookmark per selected row, in order. -/
theorem fetchBookmarks_ok (E : Engine) (s : Store) (wc : Bool) (ps : List Pred)
    (herr : stmtError E s ps = none)
    (hsome : ∀ r ∈ selectRows E s ps, ∃ c, r.bc = some c)
    (htags : ∀ bt ∈ s.bookmark_tag, bt.tag_id ∈ s.tag.map (·.id)) :
    ∃ bs, fetchBookmarks E s wc ps = (bs, none) ∧
      List.Forall₂ (fun r b => ∃ c ts, r.bc = some c ∧ stmtGetTags s r.b.id = .ok ts ∧
        b = { ID := r.b.id, URL := r.b.url, Title := r.b.title, Excerpt := r.b.excerpt,
              Author := r.b.author, Modified := r.b.modified,
              Content := if wc then c.content else "",
              HTML := if wc then c.html else "",
              HasContent := decide (c.content ≠ ""), Tags := ts })
        (selectRows E s ps) bs := by
  unfold fetchBookmarks
  rw [herr]
  simp only []
  generalize selectRows E s ps = rows at hsome
  induction rows with
  | nil => exact ⟨[], rfl, List.Forall₂.nil⟩
  | cons r rows ih =>
    obtain ⟨c, hc⟩ := hsome r (List.mem_cons_self _ _)
    obtain ⟨ts, hts⟩ := stmtGetTags_ok s htags r.b.id
    obtain ⟨bs, hbs, hrel⟩ := ih (fun x hx => hsome x (List.mem_cons_of_mem _ hx))
    refine ⟨_ :: bs, ?_, List.Forall₂.cons ⟨c, ts, hc, hts, rfl⟩ hrel⟩
    simp only [mapExcept, scanBookmark, hc]
    cases hm : mapExcept (scanBookmark wc) rows with
    | error e => simp [hm] at hbs
    | ok bs1 =>
      simp only [hm] at hbs
      simp only [attachTags, hts]
      cases hm2 : mapExcept (attachTags s) bs1 with
      | error e => simp [attachTags, hm2] at hbs
      | ok bs2 =>
        simp only [attachTags, hm2] at hbs
        simp only [Prod.mk.injEq, and_true] at hbs
        simp [mapExcept, attachTags, hts, hm2, hbs]

theorem fetched_ids {s : Store} {wc : Bool} {rows : List JoinedRow} {bs : List Bookmark}
    (h : List.Forall₂ (fun (r : JoinedRow) (b : Bookmark) =>
        ∃ c ts, r.bc = some c ∧ stmtGetTags s r.b.id = .ok ts ∧
        b = { ID := r.b.id, URL := r.b.url, Title := r.b.title, Excerpt := r.b.excerpt,
              Author := r.b.author, Modified := r.b.modified,
              Content := if wc then c.content else "",
              HTML := if wc then c.html else "",
              HasContent := decide (c.content ≠ ""), Tags := ts }) rows bs) :
    bs.map (·.ID) = rows.map (·.b.id) := by
  induction h with
  | nil => rfl
  | cons hab _ ih =>
    obtain ⟨c, ts, _, _, hb⟩ := hab
    simp only [List.map_cons, ih, hb]

theorem joinOne_b {cs : List ContentRow} {b : BookmarkRow} {r : JoinedRow}
    (h : r ∈ joinOne cs b) : r.b = b := by
  unfold joinOne at h
  split at h
  · simp only [List.mem_singleton] at h
    rw [h]
  · obtain ⟨c, _, hc⟩ := List.mem_map.1 h
    rw [← hc]

theorem filter_unique {α β : Type} [DecidableEq β] (k : α → β) :
    ∀ (l : List α) (a : α), (l.map k).Nodup → a ∈ l →
      l.filter (fun x => decide (k x = k a)) = [a] := by
  intro l
  induction l with
  | nil => intro a _ h; cases h
  | cons x xs ih =>
    intro a hnd ha
    simp only [List.map_cons, List.nodup_cons] at hnd
    rcases List.mem_cons.1 ha with rfl | ha
    · have : xs.filter (fun x => decide (k x = k a)) = [] := by
        apply List.filter_eq_nil_iff.2
        intro y hy hk
        simp only [decide_eq_true_eq] at hk
        exact hnd.1 (hk ▸ List.mem_map_of_mem k hy)
      simp [List.filter_cons, this]
    · have hne : k x ≠ k a := fun hk => hnd.1 (hk ▸ List.mem_map_of_mem k ha)
      simp [List.filter_cons, hne, ih a hnd.2 ha]

theorem joinOne_unique {cs : List ContentRow} {b : BookmarkRow} {c : ContentRow}
    (hnd : (cs.map (·.docid)).Nodup) (hc : c ∈ cs) (hcb : c.docid = b.id) :
    joinOne cs b = [{ b := b, bc := some c }] := by
  unfold joinOne
  have := filter_unique (fun (c : ContentRow) => c.docid) cs c hnd hc
  simp only [hcb] at this
  rw [this]
  rfl

theorem filter_joined (cs : List ContentRow) (p : BookmarkRow → Bool) :
    ∀ l : List BookmarkRow,
      (l.flatMap (joinOne cs)).filter (fun r => p r.b) = (l.filter p).flatMap (joinOne cs) := by
  intro l
  induction l with
  | nil => rfl
  | cons b rest ih =>
    simp only [List.flatMap_cons, List.filter_append, ih]
    by_cases hp : p b = true
    · have : (joinOne cs b).filter (fun r => p r.b) = joinOne cs b := by
        apply List.filter_eq_self.2
        intro r hr
        rw [joinOne_b hr]; exact hp
      simp [List.filter_cons, hp, this]
    · have : (joinOne cs b).filter (fun r => p r.b) = [] := by
        apply List.filter_eq_nil_iff.2
        intro r hr
        rw [joinOne_b hr]; exact hp
      simp [List.filter_cons, hp, this]

theorem joined_map_b (cs : List ContentRow) (hnd : (cs.map (·.docid)).Nodup) :
    ∀ l : List BookmarkRow, (∀ b ∈ l, b.id ∈ cs.map (·.docid)) →
      (l.flatMap (joinOne cs)).map (·.b) = l := by
  intro l
  induction l with
  | nil => intro _; rfl
  | cons b rest ih =>
    intro h
    obtain ⟨c, hc, hcb⟩ := List.mem_map.1 (h b (List.mem_cons_self _ _))
    simp only [List.flatMap_cons, List.map_append, joinOne_unique hnd hc hcb,
      ih (fun x hx => h x (List.mem_cons_of_mem _ hx))]
    rfl

theorem stmtInsertBook_valid {s s1 : Store} {id : Int} {u t e a m u2 t2 e2 a2 m2 : String}
    (hv : Valid s) (h : stmtInsertBook s id u t e a m u2 t2 e2 a2 m2 = .ok s1) : Valid s1 := by
  obtain ⟨h1, h2, h3, h4, h5, h6, h7, h8⟩ := hv
  unfold stmtInsertBook at h
  split at h
  · split at h
    · cases h
    · rename_i hex hconf
      simp only [Except.ok.injEq] at h
      subst h
      have hids : (s.bookmark.map (fun r => if r.id = id then
          ({ id := id, url := u2, title := t2, excerpt := e2, author := a2, modified := m2 } :
            BookmarkRow) else r)).map (·.id) = s.bookmark.map (·.id) := by
        rw [List.map_map]
        apply List.map_congr_left
        intro r _
        by_cases hr : r.id = id <;> simp [hr]
      refine ⟨?_, ?_, h3, h4, h5, h6, h7, h8⟩
      · simp only [hids]; exact h1
      · simp only [List.map_map]
        apply List.Nodup.map_on _ (List.Nodup.of_map _ h1)
        intro x hx y hy hxy
        have hnc : ∀ r ∈ s.bookmark, r.id ≠ id → r.url ≠ u2 := by
          intro r hr hne hurl
          apply hconf
          simp only [List.any_eq_true]
          exact ⟨r, hr, by simp [hne, hurl]⟩
        by_cases hxi : x.id = id <;> by_cases hyi : y.id = id
        · exact List.inj_on_of_nodup_map h1 hx hy (hxi.trans hyi.symm)
        · simp [hxi, hyi] at hxy
          exact absurd hxy.symm (hnc y hy hyi)
        · simp [hxi, hyi] at hxy
          exact absurd hxy (hnc x hx hxi)
        · simp [hxi, hyi] at hxy
          exact List.inj_on_of_nodup_map h2 hx hy hxy
  · split at h
    · cases h
    · rename_i hex hconf
      simp only [Except.ok.injEq] at h
      subst h
      refine ⟨?_, ?_, h3, h4, h5, h6, h7, h8⟩
      · simp only [List.map_append, List.map_cons, List.map_nil]
        apply List.Nodup.append h1 (List.nodup_singleton _)
        intro x hx hx2
        simp only [List.mem_singleton] at hx2
        subst hx2
        apply hex
        obtain ⟨r, hr, hrid⟩ := List.mem_map.1 hx
        simp only [List.any_eq_true]
        exact ⟨r, hr, by simp [hrid]⟩
      · simp only [List.map_append, List.map_cons, List.map_nil]
        apply List.Nodup.append h2 (List.nodup_singleton _)
        intro x hx hx2
        simp only [List.mem_singleton] at hx2
        subst hx2
        apply hconf
        obtain ⟨r, hr, hrid⟩ := List.mem_map.1 hx
        simp only [List.any_eq_true]
        exact ⟨r, hr, by simp [hrid]⟩

theorem stmtUpdateBookContent_docids (s : Store) (t c h : String) (id : Int) :
    (stmtUpdateBookContent s t c h id).bookmark_content.map (·.docid) =
      s.bookmark_content.map (·.docid) := by
  simp only [stmtUpdateBookContent, List.map_map]
  apply List.map_congr_left
  intro r _
  by_cases hr : r.docid = id <;> simp [hr]

theorem stmtUpdateBookContent_valid {s : Store} (t c h : String) (id : Int)
    (hv : Valid s) : Valid (stmtUpdateBookContent s t c h id) := by
  obtain ⟨h1, h2, h3, h4, h5, h6, h7, h8⟩ := hv
  refine ⟨h1, h2, h3, h4, h5, ?_, h7, h8⟩
  rw [stmtUpdateBookContent_docids]
  exact h6

theorem stmtInsertBookContent_valid {s : Store} (id : Int) (t c h : String)
    (hv : Valid s) : Valid (stmtInsertBookContent s id t c h) := by
  obtain ⟨h1, h2, h3, h4, h5, h6, h7, h8⟩ := hv
  unfold stmtInsertBookContent
  split
  · exact ⟨h1, h2, h3, h4, h5, h6, h7, h8⟩
  · rename_i hex
    refine ⟨h1, h2, h3, h4, h5, ?_, h7, h8⟩
    simp only [List.map_append, List.map_cons, List.map_nil]
    apply List.Nodup.append h6 (List.nodup_singleton _)
    intro x hx hx2
    simp only [List.mem_singleton] at hx2
    subst hx2
    apply hex
    obtain ⟨r, hr, hrid⟩ := List.mem_map.1 hx
    simp only [List.any_eq_true]
    exact ⟨r, hr, by simp [hrid]⟩

theorem stmtDeleteBookTag_valid {s : Store} (b t : Int) (hv : Valid s) :
    Valid (stmtDeleteBookTag s b t) := by
  obtain ⟨h1, h2, h3, h4, h5, h6, h7, h8⟩ := hv
  refine ⟨h1, h2, h3, h4, h5.filter _, h6, ?_, h8⟩
  intro bt hbt
  exact h7 bt (List.mem_of_mem_filter hbt)

theorem newRowid_spec {ids : List Int} {id : Int} (h : newRowid ids = .ok id)
    (hpos : ∀ i ∈ ids, 0 < i) : 0 < id ∧ id ∉ ids := by
  unfold newRowid at h
  cases hm : ids.max? with
  | none =>
    rw [hm] at h
    simp only [Except.ok.injEq] at h
    subst h
    have : ids = [] := List.max?_eq_none_iff.1 hm
    subst this
    simp
  | some m =>
    rw [hm] at h
    simp only at h
    split at h
    · simp only [Except.ok.injEq] at h
      subst h
      obtain ⟨hmem, hle⟩ := max?_spec.1 hm
      refine ⟨by have := hpos m hmem; omega, ?_⟩
      intro hin
      have := hle _ hin
      omega
    · cases h

theorem stmtInsertTag_valid {s s1 : Store} {name : String} {id : Int} (hv : Valid s)
    (h : stmtInsertTag s name = .ok (s1, id)) :
    Valid s1 ∧ 0 < id ∧ id ∈ s1.tag.map (·.id) := by
  obtain ⟨h1, h2, h3, h4, h5, h6, h7, h8⟩ := hv
  unfold stmtInsertTag at h
  split at h
  · cases h
  · rename_i hex
    cases hn : newRowid (s.tag.map (·.id)) with
    | error e => rw [hn] at h; cases h
    | ok nid =>
      rw [hn] at h
      simp only [Except.ok.injEq, Prod.mk.injEq] at h
      obtain ⟨hs, hid⟩ := h
      subst hs hid
      have hspec := newRowid_spec hn (by
        intro i hi
        obtain ⟨r, hr, hri⟩ := List.mem_map.1 hi
        exact hri ▸ h8 r hr)
      refine ⟨⟨h1, h2, ?_, ?_, h5, h6, ?_, ?_⟩, hspec.1, by simp⟩
      · simp only [List.map_append, List.map_cons, List.map_nil]
        apply List.Nodup.append h3 (List.nodup_singleton _)
        intro x hx hx2
        simp only [List.mem_singleton] at hx2
        subst hx2
        exact hspec.2 hx
      · simp only [List.map_append, List.map_cons, List.map_nil]
        apply List.Nodup.append h4 (List.nodup_singleton _)
        intro x hx hx2
        simp only [List.mem_singleton] at hx2
        subst hx2
        apply hex
        obtain ⟨r, hr, hrid⟩ := List.mem_map.1 hx
        simp only [List.any_eq_true]
        exact ⟨r, hr, by simp [hrid]⟩
      · intro bt hbt
        simp only [List.map_append, List.mem_append]
        exact Or.inl (h7 bt hbt)
      · intro t ht
        rcases List.mem_append.1 ht with ht | ht
        · exact h8 t ht
        · simp only [List.mem_singleton] at ht
          subst ht
          exact hspec.1

theorem stmtInsertBookTag_valid {s : Store} (t b : Int) (hv : Valid s)
    (ht : t ∈ s.tag.map (·.id)) : Valid (stmtInsertBookTag s t b) := by
  obtain ⟨h1, h2, h3, h4, h5, h6, h7, h8⟩ := hv
  unfold stmtInsertBookTag
  split
  · exact ⟨h1, h2, h3, h4, h5, h6, h7, h8⟩
  · rename_i hex
    refine ⟨h1, h2, h3, h4, ?_, h6, ?_, h8⟩
    · apply List.Nodup.append h5 (List.nodup_singleton _)
      intro x hx hx2
      simp only [List.mem_singleton] at hx2
      subst hx2
      apply hex
      simp only [List.any_eq_true]
      exact ⟨_, hx, by simp⟩
    · intro bt hbt
      rcases List.mem_append.1 hbt with hbt | hbt
      · exact h7 bt hbt
      · simp only [List.mem_singleton] at hbt
        subst hbt
        exact ht

theorem stmtGetTag_found {s : Store} {name : String} (h : (stmtGetTag s name).1 ≠ 0) :
    (⟨(stmtGetTag s name).1, name⟩ : TagRow) ∈ s.tag ∧ (stmtGetTag s name).2 = none := by
  unfold stmtGetTag at h ⊢
  cases hf : s.tag.find? (fun t => t.name = name) with
  | none => simp [hf] at h
  | some t =>
    have h1 := List.mem_of_find?_eq_some hf
    have h2 := List.find?_some hf
    simp only [decide_eq_true_eq] at h2
    subst h2
    exact ⟨h1, rfl⟩

theorem saveTag_valid {toLower : Char → Char} {bookID : Int} {s s1 : Store} {tag : Tag}
    {o : Option Tag} (hv : Valid s) (h : saveTag toLower bookID s tag = .ok (s1, o)) :
    Valid s1 := by
  unfold saveTag at h
  split at h
  · simp only [Except.ok.injEq, Prod.mk.injEq] at h
    rw [← h.1]
    exact stmtDeleteBookTag_valid _ _ hv
  · simp only at h
    split at h
    · split at h
      · cases h
      · split at h
        · split at h
          · cases h
          · rename_i s2 id hins
            simp only [Except.ok.injEq, Prod.mk.injEq] at h
            rw [← h.1]
            obtain ⟨hv2, _, hmem⟩ := stmtInsertTag_valid hv hins
            exact stmtInsertBookTag_valid _ _ hv2 hmem
        · rename_i hne
          simp only [Except.ok.injEq, Prod.mk.injEq] at h
          rw [← h.1]
          apply stmtInsertBookTag_valid _ _ hv
          exact List.mem_map.2 ⟨_, (stmtGetTag_found hne).1, rfl⟩
    · simp only [Except.ok.injEq, Prod.mk.injEq] at h
      rw [← h.1]
      exact hv

theorem saveTags_induct {toLower : Char → Char} {bookID : Int} (P : Store → Prop) :
    ∀ (tags : List Tag),
      (∀ s tag s1 o, tag ∈ tags → P s → saveTag toLower bookID s tag = .ok (s1, o) → P s1) →
      ∀ (s s1 : Store) (r : List Tag),
        P s → saveTags toLower bookID s tags = .ok (s1, r) → P s1 := by
  intro tags
  induction tags with
  | nil =>
    intro _ s s1 r hp h
    simp only [saveTags, Except.ok.injEq, Prod.mk.injEq] at h
    exact h.1 ▸ hp
  | cons tag rest ih =>
    intro hstep s s1 r hp h
    unfold saveTags at h
    cases h1 : saveTag toLower bookID s tag with
    | error e => rw [h1] at h; cases h
    | ok x =>
      obtain ⟨sa, o⟩ := x
      rw [h1] at h
      simp only at h
      cases h2 : saveTags toLower bookID sa rest with
      | error e => rw [h2] at h; cases h
      | ok y =>
        obtain ⟨sb, ts⟩ := y
        rw [h2] at h
        simp only [Except.ok.injEq, Prod.mk.injEq] at h
        exact h.1 ▸ ih (fun a b c d hm => hstep a b c d (List.mem_cons_of_mem _ hm)) sa sb ts
          (hstep s tag sa o (List.mem_cons_self _ _) hp h1) h2

theorem saveBooks_induct {toLower : Char → Char} {now : String} (P : Store → Prop) :
    ∀ (bs : List Bookmark),
      (∀ s b s1 b1, b ∈ bs → P s → saveBook toLower now s b = .ok (s1, b1) → P s1) →
      ∀ (s s1 : Store) (r : List Bookmark),
        P s → saveBooks toLower now s bs = .ok (s1, r) → P s1 := by
  intro bs
  induction bs with
  | nil =>
    intro _ s s1 r hp h
    simp only [saveBooks, Except.ok.injEq, Prod.mk.injEq] at h
    exact h.1 ▸ hp
  | cons b rest ih =>
    intro hstep s s1 r hp h
    unfold saveBooks at h
    cases h1 : saveBook toLower now s b with
    | error e => rw [h1] at h; cases h
    | ok x =>
      obtain ⟨sa, o⟩ := x
      rw [h1] at h
      simp only at h
      cases h2 : saveBooks toLower now sa rest with
      | error e => rw [h2] at h; cases h
      | ok y =>
        obtain ⟨sb, ts⟩ := y
        rw [h2] at h
        simp only [Except.ok.injEq, Prod.mk.injEq] at h
        exact h.1 ▸ ih (fun a b c d hm => hstep a b c d (List.mem_cons_of_mem _ hm)) sa sb ts
          (hstep s b sa o (List.mem_cons_self _ _) hp h1) h2

theorem saveBooks_cons {toLower : Char → Char} {now : String} {s s1 : Store} {b : Bookmark}
    {rest res : List Bookmark} (h : saveBooks toLower now s (b :: rest) = .ok (s1, res)) :
    ∃ sa b1 r2, saveBook toLower now s b = .ok (sa, b1) ∧
      saveBooks toLower now sa rest = .ok (s1, r2) ∧ res = b1 :: r2 := by
  unfold saveBooks at h
  cases h1 : saveBook toLower now s b with
  | error e => rw [h1] at h; cases h
  | ok x =>
    obtain ⟨sa, o⟩ := x
    rw [h1] at h
    simp only at h
    cases h2 : saveBooks toLower now sa rest with
    | error e => rw [h2] at h; cases h
    | ok y =>
      obtain ⟨sb, ts⟩ := y
      rw [h2] at h
      simp only [Except.ok.injEq, Prod.mk.injEq] at h
      exact ⟨sa, o, ts, rfl, h.1 ▸ h2, h.2.symm⟩

theorem saveBooks_append {toLower : Char → Char} {now : String} :
    ∀ (l1 l2 : List Bookmark) (s s1 : Store) (res : List Bookmark),
      saveBooks toLower now s (l1 ++ l2) = .ok (s1, res) →
      ∃ sm r1 r2, saveBooks toLower now s l1 = .ok (sm, r1) ∧
        saveBooks toLower now sm l2 = .ok (s1, r2) ∧ res = r1 ++ r2 := by
  intro l1
  induction l1 with
  | nil => intro l2 s s1 res h; exact ⟨s, [], res, rfl, h, rfl⟩
  | cons b rest ih =>
    intro l2 s s1 res h
    obtain ⟨sa, b1, r2, h1, h2, h3⟩ := saveBooks_cons h
    obtain ⟨sm, ra, rb, h4, h5, h6⟩ := ih l2 sa s1 r2 h2
    refine ⟨sm, b1 :: ra, rb, ?_, h5, by rw [h3, h6]; rfl⟩
    simp [saveBooks, h1, h4]

theorem saveTags_cons {toLower : Char → Char} {bookID : Int} {s s1 : Store} {t : Tag}
    {rest res : List Tag} (h : saveTags toLower bookID s (t :: rest) = .ok (s1, res)) :
    ∃ sa o r2, saveTag toLower bookID s t = .ok (sa, o) ∧
      saveTags toLower bookID sa rest = .ok (s1, r2) ∧ res = o.toList ++ r2 := by
  unfold saveTags at h
  cases h1 : saveTag toLower bookID s t with
  | error e => rw [h1] at h; cases h
  | ok x =>
    obtain ⟨sa, o⟩ := x
    rw [h1] at h
    simp only at h
    cases h2 : saveTags toLower bookID sa rest with
    | error e => rw [h2] at h; cases h
    | ok y =>
      obtain ⟨sb, ts⟩ := y
      rw [h2] at h
      simp only [Except.ok.injEq, Prod.mk.injEq] at h
      exact ⟨sa, o, ts, rfl, h.1 ▸ h2, h.2.symm⟩

theorem saveTags_append {toLower : Char → Char} {bookID : Int} :
    ∀ (l1 l2 : List Tag) (s s1 : Store) (res : List Tag),
      saveTags toLower bookID s (l1 ++ l2) = .ok (s1, res) →
      ∃ sm r1 r2, saveTags toLower bookID s l1 = .ok (sm, r1) ∧
        saveTags toLower bookID sm l2 = .ok (s1, r2) ∧ res = r1 ++ r2 := by
  intro l1
  induction l1 with
  | nil => intro l2 s s1 res h; exact ⟨s, [], res, rfl, h, rfl⟩
  | cons b rest ih =>
    intro l2 s s1 res h
    obtain ⟨sa, b1, r2, h1, h2, h3⟩ := saveTags_cons h
    obtain ⟨sm, ra, rb, h4, h5, h6⟩ := ih l2 sa s1 r2 h2
    refine ⟨sm, b1.toList ++ ra, rb, ?_, h5, by rw [h3, h6, List.append_assoc]⟩
    simp [saveTags, h1, h4]

/-- The shape of a successful `saveBook`: the draft is valid and the four
stages succeed in turn. -/
theorem saveBook_ok {toLower : Char → Char} {now : String} {s s1 : Store} {b b1 : Bookmark}
    (h : saveBook toLower now s b = .ok (s1, b1)) :
    b.ID ≠ 0 ∧ b.URL ≠ "" ∧ b.Title ≠ "" ∧
    ∃ sa newTags,
      stmtInsertBook s b.ID b.URL b.Title b.Excerpt b.Author now
        b.URL b.Title b.Excerpt b.Author now = .ok sa ∧
      saveTags toLower b.ID
        (stmtInsertBookContent (stmtUpdateBookContent sa b.Title b.Content b.HTML b.ID)
          b.ID b.Title b.Content b.HTML) b.Tags = .ok (s1, newTags) ∧
      b1 = { b with Modified := now, Tags := newTags } := by
  unfold saveBook at h
  split at h
  · cases h
  · split at h
    · cases h
    · split at h
      · cases h
      · rename_i h1 h2 h3
        refine ⟨h1, h2, h3, ?_⟩
        simp only at h
        split at h
        · cases h
        · rename_i sa hsa
          split at h
          · cases h
          · rename_i s4 newTags htags
            simp only [Except.ok.injEq, Prod.mk.injEq] at h
            exact ⟨sa, newTags, hsa, h.1 ▸ htags, h.2.symm⟩

theorem saveBook_valid {toLower : Char → Char} {now : String} {s s1 : Store} {b b1 : Bookmark}
    (hv : Valid s) (h : saveBook toLower now s b = .ok (s1, b1)) : Valid s1 := by
  obtain ⟨_, _, _, sa, newTags, hsa, htags, _⟩ := saveBook_ok h
  have h1 := stmtInsertBook_valid hv hsa
  have h2 := stmtUpdateBookContent_valid b.Title b.Content b.HTML b.ID h1
  have h3 := stmtInsertBookContent_valid b.ID b.Title b.Content b.HTML h2
  exact saveTags_induct Valid _ (fun _ _ _ _ _ hp hs => saveTag_valid hp hs) _ _ _ h3 htags

/-- The shape of a successful `SaveBookmarks`. -/
theorem SaveBookmarks_ok {toLower : Char → Char} {now : String} {s s1 : Store}
    {bs res : List Bookmark} (h : SaveBookmarks toLower now s bs = ((res, none), s1)) :
    saveBooks toLower now s bs = .ok (s1, res) := by
  unfold SaveBookmarks at h
  cases hs : saveBooks toLower now s bs with
  | error e => rw [hs] at h; simp at h
  | ok x =>
    obtain ⟨sa, r⟩ := x
    rw [hs] at h
    simp only [Prod.mk.injEq, and_true] at h
    rw [h.1, h.2]

theorem SaveBookmarks_cases (toLower : Char → Char) (now : String) (s : Store)
    (bs : List Bookmark) :
    (∃ e, SaveBookmarks toLower now s bs = (([], some e), s)) ∨
    (∃ res s1, SaveBookmarks toLower now s bs = ((res, none), s1)) := by
  unfold SaveBookmarks
  cases saveBooks toLower now s bs with
  | error e => exact Or.inl ⟨e, rfl⟩
  | ok x => exact Or.inr ⟨x.2, x.1, rfl⟩

theorem SaveBookmarks_valid (toLower : Char → Char) (now : String) (s : Store)
    (bs : List Bookmark) (hv : Valid s) : Valid (SaveBookmarks toLower now s bs).2 := by
  rcases SaveBookmarks_cases toLower now s bs with ⟨e, he⟩ | ⟨res, s1, h⟩
  · rw [he]; exact hv
  · rw [h]
    exact saveBooks_induct Valid _ (fun _ _ _ _ _ hp hs => saveBook_valid hp hs) _ _ _ hv
      (SaveBookmarks_ok h)

theorem DeleteBookmarks_valid (s : Store) (ids : List Int) (hv : Valid s) :
    Valid (DeleteBookmarks s ids).2 := by
  obtain ⟨h1, h2, h3, h4, h5, h6, h7, h8⟩ := hv
  unfold DeleteBookmarks
  split
  · dsimp only
    exact ⟨List.nodup_nil, List.nodup_nil, h3, h4, List.nodup_nil, List.nodup_nil,
      (by intro bt hbt; cases hbt), h8⟩
  · simp only [foldl_deleteOne]
    refine ⟨?_, ?_, h3, h4, h5.filter _, ?_, ?_, h8⟩
    · exact (List.filter_sublist _).map _ |>.nodup h1
    · exact (List.filter_sublist _).map _ |>.nodup h2
    · exact (List.filter_sublist _).map _ |>.nodup h6
    · intro bt hbt
      exact h7 bt (List.mem_of_mem_filter hbt)

theorem reachable_valid {toLower : Char → Char} {s : Store} (h : Reachable toLower s) :
    Valid s := by
  induction h with
  | init => decide
  | save now s bs _ ih => exact SaveBookmarks_valid toLower now s bs ih
  | delete s ids _ ih => exact DeleteBookmarks_valid s ids ih

/-- Effect of the upsert on the bookmark table, as run by `saveBook` (both
groups of values equal): the row with this id is the new row, every other row
stays, and no other table changes. -/
theorem stmtInsertBook_spec {s s1 : Store} {id : Int} {u t e a m : String}
    (h : stmtInsertBook s id u t e a m u t e a m = .ok s1) :
    (∀ r, r ∈ s1.bookmark ↔ (r ∈ s.bookmark ∧ r.id ≠ id) ∨ r = ⟨id, u, t, e, a, m⟩) ∧
    s1.tag = s.tag ∧ s1.bookmark_tag = s.bookmark_tag ∧
    s1.bookmark_content = s.bookmark_content ∧ s1.account = s.account := by
  unfold stmtInsertBook at h
  split at h
  · split at h
    · cases h
    · rename_i hex hconf
      simp only [Except.ok.injEq] at h
      subst h
      refine ⟨?_, rfl, rfl, rfl, rfl⟩
      intro r
      simp only [List.mem_map]
      constructor
      · rintro ⟨x, hx, hxr⟩
        by_cases hxi : x.id = id
        · simp only [hxi, if_true] at hxr
          exact Or.inr hxr.symm
        · simp only [hxi, if_false] at hxr
          subst hxr
          exact Or.inl ⟨hx, hxi⟩
      · rintro (⟨hr, hne⟩ | hr)
        · exact ⟨r, hr, by simp [hne]⟩
        · obtain ⟨x, hx, hxi⟩ := List.any_eq_true.1 hex
          simp only [decide_eq_true_eq] at hxi
          exact ⟨x, hx, by simp [hxi, hr]⟩
  · split at h
    · cases h
    · rename_i hex hconf
      simp only [Except.ok.injEq] at h
      subst h
      refine ⟨?_, rfl, rfl, rfl, rfl⟩
      intro r
      simp only [List.mem_append, List.mem_singleton]
      constructor
      · rintro (hr | hr)
        · refine Or.inl ⟨hr, ?_⟩
          intro hid
          apply hex
          exact List.any_eq_true.2 ⟨r, hr, by simp [hid]⟩
        · exact Or.inr hr
      · rintro (⟨hr, _⟩ | hr)
        · exact Or.inl hr
        · exact Or.inr hr

/-- Effect of the shadow refresh (UPDATE, then INSERT OR IGNORE): every row
with this docid is the new row, which is present; every other row stays. -/
theorem shadow_spec (s : Store) (id : Int) (t c h : String) :
    (∀ x, x ∈ (stmtInsertBookContent (stmtUpdateBookContent s t c h id) id t c h).bookmark_content ↔
      (x ∈ s.bookmark_content ∧ x.docid ≠ id) ∨ x = ⟨id, t, c, h⟩) ∧
    (stmtInsertBookContent (stmtUpdateBookContent s t c h id) id t c h).bookmark = s.bookmark ∧
    (stmtInsertBookContent (stmtUpdateBookContent s t c h id) id t c h).tag = s.tag ∧
    (stmtInsertBookContent (stmtUpdateBookContent s t c h id) id t c h).bookmark_tag =
      s.bookmark_tag ∧
    (stmtInsertBookContent (stmtUpdateBookContent s t c h id) id t c h).account = s.account := by
  have hupd : ∀ x, x ∈ (stmtUpdateBookContent s t c h id).bookmark_content ↔
      (x ∈ s.bookmark_content ∧ x.docid ≠ id) ∨
        (x = ⟨id, t, c, h⟩ ∧ ∃ y ∈ s.bookmark_content, y.docid = id) := by
    intro x
    simp only [stmtUpdateBookContent, List.mem_map]
    constructor
    · rintro ⟨y, hy, hyx⟩
      by_cases hyi : y.docid = id
      · simp only [hyi, if_true] at hyx
        exact Or.inr ⟨hyx.symm, y, hy, hyi⟩
      · simp only [hyi, if_false] at hyx
        subst hyx
        exact Or.inl ⟨hy, hyi⟩
    · rintro (⟨hx, hne⟩ | ⟨hx, y, hy, hyi⟩)
      · exact ⟨x, hx, by simp [hne]⟩
      · exact ⟨y, hy, by simp [hyi, hx]⟩
  unfold stmtInsertBookContent
  split
  · rename_i hex
    refine ⟨?_, rfl, rfl, rfl, rfl⟩
    intro x
    rw [hupd]
    obtain ⟨y, hy, hyi⟩ := List.any_eq_true.1 hex
    simp only [decide_eq_true_eq] at hyi
    have hy2 := (hupd y).1 hy
    have hex2 : ∃ y ∈ s.bookmark_content, y.docid = id := by
      rcases hy2 with ⟨hy3, hne⟩ | ⟨_, hy3⟩
      · exact absurd hyi hne
      · exact hy3
    constructor
    · rintro (hl | ⟨hr, _⟩)
      · exact Or.inl hl
      · exact Or.inr hr
    · rintro (hl | hr)
      · exact Or.inl hl
      · exact Or.inr ⟨hr, hex2⟩
  · rename_i hex
    refine ⟨?_, rfl, rfl, rfl, rfl⟩
    intro x
    simp only [List.mem_append, List.mem_singleton]
    rw [hupd]
    constructor
    · rintro ((hl | ⟨hr, _⟩) | hr)
      · exact Or.inl hl
      · exact Or.inr hr
      · exact Or.inr hr
    · rintro (hl | hr)
      · exact Or.inl (Or.inl hl)
      · exact Or.inr hr

/-- What one tag step leaves alone: the bookmark, shadow and account tables;
an association row of the result is an old one or belongs to this bookmark,
and tag rows are only added. -/
theorem saveTag_frame {toLower : Char → Char} {bookID : Int} {s s1 : Store} {tag : Tag}
    {o : Option Tag} (h : saveTag toLower bookID s tag = .ok (s1, o)) :
    s1.bookmark = s.bookmark ∧ s1.bookmark_content = s.bookmark_content ∧
    s1.account = s.account ∧
    (∀ bt ∈ s1.bookmark_tag, bt ∈ s.bookmark_tag ∨ bt.bookmark_id = bookID) ∧
    (∀ t ∈ s.tag, t ∈ s1.tag) := by
  have hins : ∀ (x : Store) (tid : Int),
      ∀ bt ∈ (stmtInsertBookTag x tid bookID).bookmark_tag,
        bt ∈ x.bookmark_tag ∨ bt.bookmark_id = bookID := by
    intro x tid bt hbt
    unfold stmtInsertBookTag at hbt
    split at hbt
    · exact Or.inl hbt
    · rcases List.mem_append.1 hbt with hbt | hbt
      · exact Or.inl hbt
      · simp only [List.mem_singleton] at hbt
        exact Or.inr (by rw [hbt])
  have hins2 : ∀ (x : Store) (tid : Int),
      (stmtInsertBookTag x tid bookID).bookmark = x.bookmark ∧
      (stmtInsertBookTag x tid bookID).bookmark_content = x.bookmark_content ∧
      (stmtInsertBookTag x tid bookID).account = x.account ∧
      (stmtInsertBookTag x tid bookID).tag = x.tag := by
    intro x tid
    unfold stmtInsertBookTag
    split <;> exact ⟨rfl, rfl, rfl, rfl⟩
  unfold saveTag at h
  split at h
  · simp only [Except.ok.injEq, Prod.mk.injEq] at h
    rw [← h.1]
    exact ⟨rfl, rfl, rfl, fun bt hbt => Or.inl (List.mem_of_mem_filter hbt), fun t ht => ht⟩
  · simp only at h
    split at h
    · split at h
      · cases h
      · split at h
        · split at h
          · cases h
          · rename_i s2 id hins3
            simp only [Except.ok.injEq, Prod.mk.injEq] at h
            rw [← h.1]
            obtain ⟨e1, e2, e3, e4⟩ := hins2 s2 id
            have hs2 : s2.bookmark = s.bookmark ∧ s2.bookmark_content = s.bookmark_content ∧
                s2.account = s.account ∧ s2.bookmark_tag = s.bookmark_tag ∧
                ∀ t ∈ s.tag, t ∈ s2.tag := by
              unfold stmtInsertTag at hins3
              split at hins3
              · cases hins3
              · split at hins3
                · cases hins3
                · simp only [Except.ok.injEq, Prod.mk.injEq] at hins3
                  rw [← hins3.1]
                  exact ⟨rfl, rfl, rfl, rfl, fun t ht => List.mem_append_left _ ht⟩
            refine ⟨e1.trans hs2.1, e2.trans hs2.2.1, e3.trans hs2.2.2.1, ?_, ?_⟩
            · intro bt hbt
              have := hins s2 id bt hbt
              rw [hs2.2.2.2.1] at this
              exact this
            · intro t ht
              rw [e4]
              exact hs2.2.2.2.2 t ht
        · simp only [Except.ok.injEq, Prod.mk.injEq] at h
          rw [← h.1]
          obtain ⟨e1, e2, e3, e4⟩ := hins2 s (stmtGetTag s (normalizeTagName toLower tag.Name)).1
          exact ⟨e1, e2, e3, hins s _, fun t ht => e4 ▸ ht⟩
    · simp only [Except.ok.injEq, Prod.mk.injEq] at h
      rw [← h.1]
      exact ⟨rfl, rfl, rfl, fun bt hbt => Or.inl hbt, fun t ht => ht⟩

theorem saveTags_frame {toLower : Char → Char} {bookID : Int} {s s1 : Store} {tags r : List Tag}
    (h : saveTags toLower bookID s tags = .ok (s1, r)) :
    s1.bookmark = s.bookmark ∧ s1.bookmark_content = s.bookmark_content ∧
    s1.account = s.account ∧
    (∀ bt ∈ s1.bookmark_tag, bt ∈ s.bookmark_tag ∨ bt.bookmark_id = bookID) ∧
    (∀ t ∈ s.tag, t ∈ s1.tag) := by
  refine saveTags_induct (fun x => x.bookmark = s.bookmark ∧
      x.bookmark_content = s.bookmark_content ∧ x.account = s.account ∧
      (∀ bt ∈ x.bookmark_tag, bt ∈ s.bookmark_tag ∨ bt.bookmark_id = bookID) ∧
      (∀ t ∈ s.tag, t ∈ x.tag)) tags ?_ s s1 r
    ⟨rfl, rfl, rfl, fun bt hbt => Or.inl hbt, fun t ht => ht⟩ h
  intro x tag x1 o _ hp hs
  obtain ⟨f1, f2, f3, f4, f5⟩ := saveTag_frame hs
  obtain ⟨p1, p2, p3, p4, p5⟩ := hp
  refine ⟨f1.trans p1, f2.trans p2, f3.trans p3, ?_, fun t ht => f5 t (p5 t ht)⟩
  intro bt hbt
  rcases f4 bt hbt with hb | hb
  · exact p4 bt hb
  · exact Or.inr hb

/-- Effect of one draft on the bookmark and shadow tables. -/
theorem saveBook_spec {toLower : Char → Char} {now : String} {s s1 : Store} {b b1 : Bookmark}
    (h : saveBook toLower now s b = .ok (s1, b1)) :
    b.ID ≠ 0 ∧
    (∀ r, r ∈ s1.bookmark ↔ (r ∈ s.bookmark ∧ r.id ≠ b.ID) ∨
      r = ⟨b.ID, b.URL, b.Title, b.Excerpt, b.Author, now⟩) ∧
    (∀ x, x ∈ s1.bookmark_content ↔ (x ∈ s.bookmark_content ∧ x.docid ≠ b.ID) ∨
      x = ⟨b.ID, b.Title, b.Content, b.HTML⟩) ∧
    (∀ bt ∈ s1.bookmark_tag, bt ∈ s.bookmark_tag ∨ bt.bookmark_id = b.ID) ∧
    (∀ t ∈ s.tag, t ∈ s1.tag) ∧ s1.account = s.account := by
  obtain ⟨hid, _, _, sa, newTags, hsa, htags, _⟩ := saveBook_ok h
  obtain ⟨a1, a2, a3, a4, a5⟩ := stmtInsertBook_spec hsa
  obtain ⟨c1, c2, c3, c4, c5⟩ := shadow_spec sa b.ID b.Title b.Content b.HTML
  obtain ⟨f1, f2, f3, f4, f5⟩ := saveTags_frame htags
  refine ⟨hid, ?_, ?_, ?_, ?_, ?_⟩
  · intro r; rw [f1, c2]; exact a1 r
  · intro x; rw [f2, c1, a4]
  · intro bt hbt
    have := f4 bt hbt
    rw [c4, a3] at this
    exact this
  · intro t ht
    apply f5
    rw [c3, a2]
    exact ht
  · rw [f3, c5, a5]

theorem saveBook_consistent {toLower : Char → Char} {now : String} {s s1 : Store}
    {b b1 : Bookmark} (hc : Consistent s) (h : saveBook toLower now s b = .ok (s1, b1)) :
    Consistent s1 := by
  obtain ⟨hid, hb, hx, hbt, _, _⟩ := saveBook_spec h
  obtain ⟨c1, c2, c3, c4⟩ := hc
  have hnew : b.ID ∈ s1.bookmark.map (·.id) :=
    List.mem_map.2 ⟨_, (hb _).2 (Or.inr rfl), rfl⟩
  have hold : ∀ i, i ∈ s.bookmark.map (·.id) → i ∈ s1.bookmark.map (·.id) := by
    intro i hi
    by_cases hii : i = b.ID
    · exact hii ▸ hnew
    · obtain ⟨r, hr, hri⟩ := List.mem_map.1 hi
      exact List.mem_map.2 ⟨r, (hb r).2 (Or.inl ⟨hr, by simpa [hri] using hii⟩), hri⟩
  refine ⟨?_, ?_, ?_, ?_⟩
  · intro r hr
    rcases (hb r).1 hr with ⟨hr1, hne⟩ | hr1
    · obtain ⟨c, hc, hci⟩ := List.mem_map.1 (c1 r hr1)
      exact List.mem_map.2 ⟨c, (hx c).2 (Or.inl ⟨hc, by simpa [hci] using hne⟩), hci⟩
    · subst hr1
      exact List.mem_map.2 ⟨_, (hx _).2 (Or.inr rfl), rfl⟩
  · intro c hc
    rcases (hx c).1 hc with ⟨hc1, hne⟩ | hc1
    · exact hold _ (c2 c hc1)
    · subst hc1
      exact hnew
  · intro r hr
    rcases (hb r).1 hr with ⟨hr1, _⟩ | hr1
    · exact c3 r hr1
    · subst hr1
      exact hid
  · intro bt hbt1
    rcases hbt bt hbt1 with h1 | h1
    · exact hold _ (c4 bt h1)
    · exact h1 ▸ hnew

theorem SaveBookmarks_consistent (toLower : Char → Char) (now : String) (s : Store)
    (bs : List Bookmark) (hc : Consistent s) :
    Consistent (SaveBookmarks toLower now s bs).2 := by
  rcases SaveBookmarks_cases toLower now s bs with ⟨e, he⟩ | ⟨res, s1, h⟩
  · rw [he]; exact hc
  · rw [h]
    exact saveBooks_induct Consistent _ (fun _ _ _ _ _ hp hs => saveBook_consistent hp hs) _ _ _ hc
      (SaveBookmarks_ok h)

theorem DeleteBookmarks_consistent (s : Store) (ids : List Int) (hc : Consistent s) :
    Consistent (DeleteBookmarks s ids).2 := by
  obtain ⟨c1, c2, c3, c4⟩ := hc
  unfold DeleteBookmarks
  split
  · dsimp only
    exact ⟨fun b hb => (by cases hb), fun c hc => (by cases hc), fun b hb => (by cases hb),
      fun bt hbt => (by cases hbt)⟩
  · simp only [foldl_deleteOne]
    refine ⟨?_, ?_, ?_, ?_⟩
    · intro b hb
      obtain ⟨hb1, hb2⟩ := List.mem_filter.1 hb
      obtain ⟨c, hc, hci⟩ := List.mem_map.1 (c1 b hb1)
      exact List.mem_map.2 ⟨c, List.mem_filter.2 ⟨hc, by rw [hci]; exact hb2⟩, hci⟩
    · intro c hc
      obtain ⟨hc1, hc2⟩ := List.mem_filter.1 hc
      obtain ⟨b, hb, hbi⟩ := List.mem_map.1 (c2 c hc1)
      exact List.mem_map.2 ⟨b, List.mem_filter.2 ⟨hb, by rw [hbi]; exact hc2⟩, hbi⟩
    · intro b hb
      exact c3 b (List.mem_of_mem_filter hb)
    · intro bt hbt
      obtain ⟨h1, h2⟩ := List.mem_filter.1 hbt
      obtain ⟨b, hb, hbi⟩ := List.mem_map.1 (c4 bt h1)
      exact List.mem_map.2 ⟨b, List.mem_filter.2 ⟨hb, by rw [hbi]; exact h2⟩, hbi⟩

theorem reachable_consistent {toLower : Char → Char} {s : Store} (h : Reachable toLower s) :
    Consistent s := by
  induction h with
  | init => decide
  | save now s bs _ ih => exact SaveBookmarks_consistent toLower now s bs ih
  | delete s ids _ ih => exact DeleteBookmarks_consistent s ids ih

/-- After a successful batch, the bookmark row and the shadow row of a draft
whose id no later draft of the batch reuses. -/
theorem saveBooks_rows {toLower : Char → Char} {now : String} {s s1 : Store}
    {pre post res : List Bookmark} {d : Bookmark}
    (h : saveBooks toLower now s (pre ++ d :: post) = .ok (s1, res))
    (hpost : ∀ x ∈ post, x.ID ≠ d.ID) :
    (⟨d.ID, d.URL, d.Title, d.Excerpt, d.Author, now⟩ : BookmarkRow) ∈ s1.bookmark ∧
    (⟨d.ID, d.Title, d.Content, d.HTML⟩ : ContentRow) ∈ s1.bookmark_content := by
  obtain ⟨sm, r1, r2, _, h2, _⟩ := saveBooks_append pre (d :: post) s s1 res h
  obtain ⟨sa, d1, r3, h3, h4, _⟩ := saveBooks_cons h2
  obtain ⟨_, hb, hx, _, _, _⟩ := saveBook_spec h3
  refine saveBooks_induct (fun x =>
      (⟨d.ID, d.URL, d.Title, d.Excerpt, d.Author, now⟩ : BookmarkRow) ∈ x.bookmark ∧
      (⟨d.ID, d.Title, d.Content, d.HTML⟩ : ContentRow) ∈ x.bookmark_content)
    post ?_ sa s1 r3 ⟨(hb _).2 (Or.inr rfl), (hx _).2 (Or.inr rfl)⟩ h4
  intro x b x1 b1 hbm hp hs
  obtain ⟨_, hb2, hx2, _, _, _⟩ := saveBook_spec hs
  have hne := hpost b hbm
  exact ⟨(hb2 _).2 (Or.inl ⟨hp.1, fun heq => hne heq.symm⟩),
    (hx2 _).2 (Or.inl ⟨hp.2, fun heq => hne heq.symm⟩)⟩

theorem stmtInsertTag_spec {s s1 : Store} {name : String} {id : Int}
    (h : stmtInsertTag s name = .ok (s1, id)) :
    s1.tag = s.tag ++ [⟨id, name⟩] ∧ s1.bookmark_tag = s.bookmark_tag ∧
    (∀ t ∈ s.tag, t.name ≠ name) := by
  unfold stmtInsertTag at h
  split at h
  · cases h
  · rename_i hex
    split at h
    · cases h
    · simp only [Except.ok.injEq, Prod.mk.injEq] at h
      obtain ⟨hs, hid⟩ := h
      subst hs hid
      refine ⟨rfl, rfl, ?_⟩
      intro t ht hn
      apply hex
      exact List.any_eq_true.2 ⟨t, ht, by simp [hn]⟩

theorem stmtInsertBookTag_spec (s : Store) (t b : Int) :
    (⟨b, t⟩ : BookmarkTagRow) ∈ (stmtInsertBookTag s t b).bookmark_tag ∧
    (∀ bt ∈ s.bookmark_tag, bt ∈ (stmtInsertBookTag s t b).bookmark_tag) ∧
    (stmtInsertBookTag s t b).tag = s.tag := by
  unfold stmtInsertBookTag
  split
  · rename_i hex
    obtain ⟨x, hx, hxp⟩ := List.any_eq_true.1 hex
    simp only [Bool.and_eq_true, decide_eq_true_eq] at hxp
    refine ⟨?_, fun bt hbt => hbt, rfl⟩
    rcases x with ⟨xb, xt⟩
    simp only at hxp
    rw [← hxp.1, ← hxp.2]
    exact hx
  · exact ⟨by simp, fun bt hbt => List.mem_append_left _ hbt, rfl⟩

/-- A tag entry that arrives with ID 0 and is not flagged removed: it is
returned with a positive id, its canonical name is a row of the tag table
under that id, the association row of the bookmark with that id is present,
and the id is the one the canonical name already had, if any. -/
theorem saveTag_zero {toLower : Char → Char} {bookID : Int} {x x1 : Store} {tag : Tag}
    {o : Option Tag} (hv : Valid x) (hid : tag.ID = 0) (hdel : tag.Deleted = false)
    (h : saveTag toLower bookID x tag = .ok (x1, o)) :
    ∃ k, 0 < k ∧ o = some { tag with ID := k } ∧
      (⟨k, normalizeTagName toLower tag.Name⟩ : TagRow) ∈ x1.tag ∧
      (⟨bookID, k⟩ : BookmarkTagRow) ∈ x1.bookmark_tag ∧
      (∀ k0, (⟨k0, normalizeTagName toLower tag.Name⟩ : TagRow) ∈ x.tag → k = k0) := by
  unfold saveTag at h
  simp only [hdel, hid, if_true, Bool.false_eq_true, if_false] at h
  split at h
  · cases h
  · split at h
    · split at h
      · cases h
      · rename_i s2 id hins
        simp only [Except.ok.injEq, Prod.mk.injEq] at h
        obtain ⟨hs, ho⟩ := h
        subst hs ho
        obtain ⟨_, hpos, _⟩ := stmtInsertTag_valid hv hins
        obtain ⟨i1, _, i3⟩ := stmtInsertTag_spec hins
        obtain ⟨b1, _, b3⟩ := stmtInsertBookTag_spec s2 id bookID
        refine ⟨id, hpos, by simp [hdel], ?_, b1, ?_⟩
        · rw [b3, i1]; simp
        · intro k0 hk0
          exact absurd rfl (i3 _ hk0)
    · rename_i hne
      simp only [Except.ok.injEq, Prod.mk.injEq] at h
      obtain ⟨hs, ho⟩ := h
      subst hs ho
      obtain ⟨hfound, _⟩ := stmtGetTag_found hne
      obtain ⟨b1, _, b3⟩ := stmtInsertBookTag_spec x
        (stmtGetTag x (normalizeTagName toLower tag.Name)).1 bookID
      refine ⟨_, hv.2.2.2.2.2.2.2 _ hfound, by simp [hdel], by rw [b3]; exact hfound, b1, ?_⟩
      intro k0 hk0
      have := List.inj_on_of_nodup_map hv.2.2.2.1 hfound hk0 rfl
      simp only [TagRow.mk.injEq, and_true] at this
      exact this

/-- A tag entry that arrives with a nonzero ID and is not flagged removed is
returned as it is and changes nothing in the database. -/
theorem saveTag_nonzero {toLower : Char → Char} {bookID : Int} {x x1 : Store} {tag : Tag}
    {o : Option Tag} (hid : tag.ID ≠ 0) (hdel : tag.Deleted = false)
    (h : saveTag toLower bookID x tag = .ok (x1, o)) : o = some tag ∧ x1 = x := by
  unfold saveTag at h
  simp only [hdel, hid, if_false, Bool.false_eq_true] at h
  simp only [Except.ok.injEq, Prod.mk.injEq] at h
  exact ⟨h.2.symm, h.1.symm⟩

theorem saveTag_count {toLower : Char → Char} {bookID : Int} {x x1 : Store} {tag : Tag}
    {o : Option Tag} (h : saveTag toLower bookID x tag = .ok (x1, o)) :
    o.toList.length = ([tag].filter (fun t => !t.Deleted)).length := by
  unfold saveTag at h
  split at h
  · rename_i hd
    simp only [Except.ok.injEq, Prod.mk.injEq] at h
    rw [← h.2]
    simp [hd]
  · rename_i hd
    simp only at h
    split at h
    · split at h
      · cases h
      · split at h
        · split at h
          · cases h
          · simp only [Except.ok.injEq, Prod.mk.injEq] at h
            rw [← h.2]
            simp [hd]
        · simp only [Except.ok.injEq, Prod.mk.injEq] at h
          rw [← h.2]
          simp [hd]
    · simp only [Except.ok.injEq, Prod.mk.injEq] at h
      rw [← h.2]
      simp [hd]

theorem saveTags_length {toLower : Char → Char} {bookID : Int} :
    ∀ (tags : List Tag) (x x1 : Store) (r : List Tag),
      saveTags toLower bookID x tags = .ok (x1, r) →
      r.length = (tags.filter (fun t => !t.Deleted)).length := by
  intro tags
  induction tags with
  | nil =>
    intro x x1 r h
    simp only [saveTags, Except.ok.injEq, Prod.mk.injEq] at h
    rw [← h.2]; rfl
  | cons t rest ih =>
    intro x x1 r h
    obtain ⟨sa, o, r2, h1, h2, h3⟩ := saveTags_cons h
    have hc := saveTag_count h1
    have hl := ih sa x1 r2 h2
    rw [h3, List.length_append, hc, hl]
    by_cases hd : t.Deleted = true <;> simp [List.filter_cons, hd]
    omega

theorem saveBooks_length {toLower : Char → Char} {now : String} :
    ∀ (bs : List Bookmark) (x x1 : Store) (r : List Bookmark),
      saveBooks toLower now x bs = .ok (x1, r) → r.length = bs.length := by
  intro bs
  induction bs with
  | nil =>
    intro x x1 r h
    simp only [saveBooks, Except.ok.injEq, Prod.mk.injEq] at h
    rw [← h.2]
  | cons b rest ih =>
    intro x x1 r h
    obtain ⟨sa, b1, r2, _, h2, h3⟩ := saveBooks_cons h
    rw [h3, List.length_cons, List.length_cons, ih sa x1 r2 h2]

/-- An association row survives a tag step unless the step is the removal of
that very row. -/
theorem saveTag_keeps {toLower : Char → Char} {bookID : Int} {x x1 : Store} {tag : Tag}
    {o : Option Tag} {bt : BookmarkTagRow} (hbt : bt ∈ x.bookmark_tag)
    (h : saveTag toLower bookID x tag = .ok (x1, o))
    (hno : ¬(tag.Deleted = true ∧ bt = ⟨bookID, tag.ID⟩)) : bt ∈ x1.bookmark_tag := by
  unfold saveTag at h
  split at h
  · rename_i hd
    simp only [Except.ok.injEq, Prod.mk.injEq] at h
    rw [← h.1]
    simp only [stmtDeleteBookTag]
    apply List.mem_filter.2 ⟨hbt, ?_⟩
    rcases bt with ⟨b1, t1⟩
    simp only [Bool.not_eq_true', Bool.and_eq_false_iff, decide_eq_false_iff_not]
    by_contra hcon
    push_neg at hcon
    exact hno ⟨hd, by rw [hcon.1, hcon.2]⟩
  · simp only at h
    split at h
    · split at h
      · cases h
      · split at h
        · split at h
          · cases h
          · rename_i s2 id hins
            simp only [Except.ok.injEq, Prod.mk.injEq] at h
            rw [← h.1]
            obtain ⟨_, i2, _⟩ := stmtInsertTag_spec hins
            exact (stmtInsertBookTag_spec s2 id bookID).2.1 bt (i2 ▸ hbt)
        · simp only [Except.ok.injEq, Prod.mk.injEq] at h
          rw [← h.1]
          exact (stmtInsertBookTag_spec x _ bookID).2.1 bt hbt
    · simp only [Except.ok.injEq, Prod.mk.injEq] at h
      rw [← h.1]
      exact hbt

theorem saveTags_keeps {toLower : Char → Char} {bookID : Int} {x x1 : Store} {tags r : List Tag}
    {bt : BookmarkTagRow} (hbt : bt ∈ x.bookmark_tag)
    (h : saveTags toLower bookID x tags = .ok (x1, r))
    (hno : ∀ tag ∈ tags, ¬(tag.Deleted = true ∧ bt = ⟨bookID, tag.ID⟩)) :
    bt ∈ x1.bookmark_tag :=
  saveTags_induct (fun y => bt ∈ y.bookmark_tag) tags
    (fun _ tag _ _ hm hp hs => saveTag_keeps hp hs (hno tag hm)) x x1 r hbt h

theorem saveBook_keeps {toLower : Char → Char} {now : String} {x x1 : Store} {b b1 : Bookmark}
    {bt : BookmarkTagRow} (hbt : bt ∈ x.bookmark_tag)
    (h : saveBook toLower now x b = .ok (x1, b1))
    (hno : ∀ tag ∈ b.Tags, ¬(tag.Deleted = true ∧ bt = ⟨b.ID, tag.ID⟩)) :
    bt ∈ x1.bookmark_tag := by
  obtain ⟨_, _, _, sa, newTags, hsa, htags, _⟩ := saveBook_ok h
  obtain ⟨_, _, a3, _, _⟩ := stmtInsertBook_spec hsa
  obtain ⟨_, _, _, c4, _⟩ := shadow_spec sa b.ID b.Title b.Content b.HTML
  exact saveTags_keeps (by rw [c4, a3]; exact hbt) htags hno

/-- One draft whose only tag entry is a name with ID 0: the entry is returned
with a positive id `k`, the canonical name is a tag row under `k`, and `k` is
the id the canonical name had before, if it had one. -/
theorem saveBook_single_tag {toLower : Char → Char} {now : String} {x x1 : Store}
    {b b1 : Bookmark} {n : String} (hv : Valid x) (ht : b.Tags = [⟨0, n, false⟩])
    (h : saveBook toLower now x b = .ok (x1, b1)) :
    Valid x1 ∧ ∃ k, 0 < k ∧ b1.Tags = [⟨k, n, false⟩] ∧
      (⟨k, normalizeTagName toLower n⟩ : TagRow) ∈ x1.tag ∧
      (∀ k0, (⟨k0, normalizeTagName toLower n⟩ : TagRow) ∈ x.tag → k = k0) := by
  refine ⟨saveBook_valid hv h, ?_⟩
  obtain ⟨_, _, _, sb, newTags, hsb, htags, hb1⟩ := saveBook_ok h
  have hv3 : Valid (stmtInsertBookContent (stmtUpdateBookContent sb b.Title b.Content b.HTML b.ID)
      b.ID b.Title b.Content b.HTML) :=
    stmtInsertBookContent_valid _ _ _ _
      (stmtUpdateBookContent_valid _ _ _ _ (stmtInsertBook_valid hv hsb))
  obtain ⟨_, a2, _, _, _⟩ := stmtInsertBook_spec hsb
  obtain ⟨_, _, c3, _, _⟩ := shadow_spec sb b.ID b.Title b.Content b.HTML
  rw [ht] at htags
  obtain ⟨x2, o, n3, g3, g4, hn2⟩ := saveTags_cons htags
  simp only [saveTags, Except.ok.injEq, Prod.mk.injEq] at g4
  obtain ⟨hx, hn3⟩ := g4
  subst hx hn3
  obtain ⟨k, hk, ho, hrow, _, huniq⟩ := saveTag_zero hv3 rfl rfl g3
  refine ⟨k, hk, ?_, hrow, ?_⟩
  · rw [hb1, hn2, ho]; rfl
  · intro k0 hk0
    apply huniq
    rw [c3, a2]
    exact hk0

theorem isSpace_space : isSpace ' ' = true := by decide

/-- Trimming at the right end, one character further left. -/
theorem rtrim_cons (c : Char) (x : List Char) :
    ((c :: x).reverse.dropWhile isSpace).reverse =
      if (x.reverse.dropWhile isSpace).reverse = [] then (if isSpace c then [] else [c])
      else c :: (x.reverse.dropWhile isSpace).reverse := by
  rw [List.reverse_cons, List.dropWhile_append]
  by_cases h : (x.reverse.dropWhile isSpace) = []
  · simp [h, List.dropWhile_cons]
    by_cases hc : isSpace c = true <;> simp [hc]
  · have h2 : (x.reverse.dropWhile isSpace).reverse ≠ [] := by simpa using h
    simp [h, h2]

theorem rtrim_cons_nonspace {c : Char} (x : List Char) (hc : isSpace c = false) :
    ((c :: x).reverse.dropWhile isSpace).reverse =
      c :: (x.reverse.dropWhile isSpace).reverse := by
  rw [rtrim_cons]
  split
  · rename_i h; simp [hc, h]
  · rfl

theorem ltrim_collapse_space {c : Char} (cs : List Char) (hc : isSpace c = true) :
    (collapseRuns (c :: cs)).dropWhile isSpace = (collapseRuns cs).dropWhile isSpace := by
  cases cs with
  | nil => simp [collapseRuns, hc, List.dropWhile_cons, isSpace_space]
  | cons d ds =>
    by_cases hd : isSpace d = true
    · simp [collapseRuns, hc, hd]
    · simp [collapseRuns, hc, hd, List.dropWhile_cons, isSpace_space]

theorem rtrim_collapse_space : ∀ (cs : List Char) (c : Char), isSpace c = true →
    ((collapseRuns (c :: cs)).reverse.dropWhile isSpace).reverse =
      if trimEnds (collapseRuns cs) = [] then [] else ' ' :: trimEnds (collapseRuns cs) := by
  intro cs
  induction cs with
  | nil => intro c hc; simp [collapseRuns, hc, trimEnds, List.dropWhile_cons, isSpace_space]
  | cons d ds ih =>
    intro c hc
    by_cases hd : isSpace d = true
    · have h1 : collapseRuns (c :: d :: ds) = collapseRuns (d :: ds) := by
        simp [collapseRuns, hc, hd]
      rw [h1, ih d hd]
      have h2 : trimEnds (collapseRuns (d :: ds)) = trimEnds (collapseRuns ds) := by
        unfold trimEnds
        rw [ltrim_collapse_space ds hd]
      rw [h2]
    · have hd' : isSpace d = false := by simpa using hd
      have h1 : collapseRuns (c :: d :: ds) = ' ' :: d :: collapseRuns ds := by
        simp [collapseRuns, hc, hd]
      have h3 : collapseRuns (d :: ds) = d :: collapseRuns ds := by
        simp [collapseRuns, hd]
      have h2 : trimEnds (collapseRuns (d :: ds)) =
          d :: ((collapseRuns ds).reverse.dropWhile isSpace).reverse := by
        unfold trimEnds
        rw [h3, List.dropWhile_cons]
        simp only [hd', Bool.false_eq_true, if_false]
        exact rtrim_cons_nonspace _ hd'
      rw [h1, h2, rtrim_cons]
      rw [rtrim_cons_nonspace _ hd']
      simp

theorem fieldsAux_nonempty : ∀ (l cur : List Char), ∀ w ∈ fieldsAux l cur, w ≠ [] := by
  intro l
  induction l with
  | nil =>
    intro cur w hw
    simp only [fieldsAux] at hw
    split at hw
    · cases hw
    · simp only [List.mem_singleton] at hw
      subst hw
      simpa using ‹¬cur = []›
  | cons c cs ih =>
    intro cur w hw
    simp only [fieldsAux] at hw
    split at hw
    · split at hw
      · exact ih [] w hw
      · rcases List.mem_cons.1 hw with h | h
        · subst h; simpa using ‹¬cur = []›
        · exact ih [] w h
    · exact ih _ w hw

theorem intercalate_eq_nil {ws : List (List Char)} (h : ∀ w ∈ ws, w ≠ []) :
    List.intercalate [' '] ws = [] ↔ ws = [] := by
  cases ws with
  | nil => simp [List.intercalate]
  | cons w rest =>
    have hw := h w (List.mem_cons_self _ _)
    cases rest with
    | nil => simp [List.intercalate, hw]
    | cons w2 r2 => simp [List.intercalate, hw]

theorem intercalate_cons (w : List Char) (ws : List (List Char)) :
    List.intercalate [' '] (w :: ws) =
      w ++ (if ws = [] then [] else ' ' :: List.intercalate [' '] ws) := by
  cases ws with
  | nil => simp [List.intercalate]
  | cons w2 r2 => simp [List.intercalate]

theorem fieldsAux_spec : ∀ (l : List Char),
    (∀ cur, cur ≠ [] → List.intercalate [' '] (fieldsAux l cur) =
      cur.reverse ++ ((collapseRuns l).reverse.dropWhile isSpace).reverse) ∧
    List.intercalate [' '] (fieldsAux l []) = trimEnds (collapseRuns l) := by
  intro l
  induction l with
  | nil =>
    refine ⟨?_, ?_⟩
    · intro cur hcur
      simp [fieldsAux, hcur, collapseRuns, List.intercalate]
    · simp [fieldsAux, collapseRuns, trimEnds, List.intercalate]
  | cons c cs ih =>
    obtain ⟨ih1, ih2⟩ := ih
    by_cases hc : isSpace c = true
    · refine ⟨?_, ?_⟩
      · intro cur hcur
        simp only [fieldsAux, hc, if_true, hcur, if_false]
        rw [intercalate_cons, rtrim_collapse_space cs c hc, ih2]
        have hiff := intercalate_eq_nil (fieldsAux_nonempty cs [])
        rw [ih2] at hiff
        by_cases hf : fieldsAux cs [] = []
        · simp [hf, hiff.2 hf]
        · have : trimEnds (collapseRuns cs) ≠ [] := fun h => hf (hiff.1 h)
          simp [hf, this]
      · simp only [fieldsAux, hc, if_true]
        rw [ih2]
        unfold trimEnds
        rw [ltrim_collapse_space cs hc]
    · have hc' : isSpace c = false := by simpa using hc
      have h3 : collapseRuns (c :: cs) = c :: collapseRuns cs := by
        simp [collapseRuns, hc]
      refine ⟨?_, ?_⟩
      · intro cur _
        simp only [fieldsAux, hc', Bool.false_eq_true, if_false]
        rw [ih1 (c :: cur) (by simp), h3, rtrim_cons_nonspace _ hc']
        simp
      · simp only [fieldsAux, hc', Bool.false_eq_true, if_false]
        rw [ih1 [c] (by simp), h3]
        unfold trimEnds
        rw [List.dropWhile_cons]
        simp only [hc', Bool.false_eq_true, if_false]
        rw [rtrim_cons_nonspace _ hc']
        simp

theorem normalizeTagName_eq_canonical (toLower : Char → Char) (name : String) :
    normalizeTagName toLower name = canonicalTagName toLower name := by
  unfold normalizeTagName canonicalTagName fields
  rw [(fieldsAux_spec _).2]

/-- A tag step on an entry that is flagged removed or carries a nonzero id
inserts no association row. -/
theorem saveTag_no_insert {toLower : Char → Char} {bookID : Int} {x x1 : Store} {tag : Tag}
    {o : Option Tag} (hcase : tag.Deleted = false → tag.ID ≠ 0)
    (h : saveTag toLower bookID x tag = .ok (x1, o)) :
    ∀ bt ∈ x1.bookmark_tag, bt ∈ x.bookmark_tag := by
  unfold saveTag at h
  split at h
  · simp only [Except.ok.injEq, Prod.mk.injEq] at h
    rw [← h.1]
    intro bt hbt
    exact List.mem_of_mem_filter hbt
  · rename_i hd
    have hne := hcase (by simpa using hd)
    simp only [hne, if_false] at h
    simp only [Except.ok.injEq, Prod.mk.injEq] at h
    rw [← h.1]
    exact fun bt hbt => hbt

theorem saveBook_no_insert {toLower : Char → Char} {now : String} {x x1 : Store}
    {b b1 : Bookmark} (hcase : ∀ tag ∈ b.Tags, tag.Deleted = false → tag.ID ≠ 0)
    (h : saveBook toLower now x b = .ok (x1, b1)) :
    ∀ bt ∈ x1.bookmark_tag, bt ∈ x.bookmark_tag := by
  obtain ⟨_, _, _, sa, newTags, hsa, htags, _⟩ := saveBook_ok h
  obtain ⟨_, _, a3, _, _⟩ := stmtInsertBook_spec hsa
  obtain ⟨_, _, _, c4, _⟩ := shadow_spec sa b.ID b.Title b.Content b.HTML
  have := saveTags_induct (fun y => ∀ bt ∈ y.bookmark_tag, bt ∈ x.bookmark_tag) b.Tags
    (fun y tag y1 o hm hp hs bt hbt => hp bt (saveTag_no_insert (hcase tag hm) hs bt hbt))
    _ x1 newTags (by intro bt hbt; rw [c4, a3] at hbt; exact hbt) htags
  exact this

/-! ## The properties of the specification -/

/-- C1: a batch holding a draft with ID 0, an empty URL or an empty title makes
`SaveBookmarks` return an error with an empty result list, and the database
after the call is the database before the call. -/
theorem C1_invalid_draft_rolls_back (toLower : Char → Char) (now : String) (s : Store)
    (bookmarks : List Bookmark)
    (h : ∃ b ∈ bookmarks, b.ID = 0 ∨ b.URL = "" ∨ b.Title = "") :
    ∃ e, SaveBookmarks toLower now s bookmarks = (([], some e), s) := by
  obtain ⟨e, he⟩ := saveBooks_invalid toLower now bookmarks s h
  exact ⟨e, by simp [SaveBookmarks, he]⟩

/-- C1 (witness): a valid draft followed by a draft with an empty title, saved
on a database that already holds a bookmark: nothing is written. -/
theorem C1_invalid_draft_rolls_back_witness :
    (∃ b ∈ [exampleDraft 2 "https://example.com" "second" [⟨0, "go", false⟩],
            exampleDraft 3 "https://example.net" "" []],
        b.ID = 0 ∨ b.URL = "" ∨ b.Title = "") ∧
    ∃ e, SaveBookmarks Char.toLower exampleNow
        (SaveBookmarks Char.toLower exampleNow emptyStore
          [exampleDraft 1 "https://example.org" "first" []]).2
        [exampleDraft 2 "https://example.com" "second" [⟨0, "go", false⟩],
         exampleDraft 3 "https://example.net" "" []] =
      (([], some e),
        (SaveBookmarks Char.toLower exampleNow emptyStore
          [exampleDraft 1 "https://example.org" "first" []]).2) :=
  ⟨by decide,
   C1_invalid_draft_rolls_back Char.toLower exampleNow _ _ (by decide)⟩

/-- C2: after a successful `SaveBookmarks` of a batch with pairwise distinct
ids, `GetBookmarks` with `IDs = [id]` of any draft of the batch returns
exactly one bookmark, carrying the draft's id, URL, title, excerpt and author,
and as modified timestamp the batch timestamp `now`, whatever `Modified` the
draft carried. -/
theorem C2_save_then_read (toLower : Char → Char) (E : Engine) (now : String) (s s1 : Store)
    (batch res : List Bookmark) (wc ol : Bool)
    (hv : Valid s) (hnodup : (batch.map (·.ID)).Nodup)
    (h : SaveBookmarks toLower now s batch = ((res, none), s1)) :
    ∀ d ∈ batch, ∃ bk,
      GetBookmarks E s1 ⟨[d.ID], "", [], wc, ol, 0, 0⟩ = ([bk], none) ∧
      bk.ID = d.ID ∧ bk.URL = d.URL ∧ bk.Title = d.Title ∧ bk.Excerpt = d.Excerpt ∧
      bk.Author = d.Author ∧ bk.Modified = now := by
  intro d hd
  have hv1 : Valid s1 := by
    have := SaveBookmarks_valid toLower now s batch hv
    rw [h] at this
    exact this
  obtain ⟨pre, post, hsplit⟩ := List.append_of_mem hd
  subst hsplit
  have hpost : ∀ x ∈ post, x.ID ≠ d.ID := by
    intro x hx heq
    simp only [List.map_append, List.map_cons] at hnodup
    have h2 := (List.nodup_append.1 hnodup).2.1
    simp only [List.nodup_cons] at h2
    exact h2.1 (heq ▸ List.mem_map_of_mem _ hx)
  obtain ⟨hrow, hcont⟩ := saveBooks_rows (SaveBookmarks_ok h) hpost
  have hsel : whereRows E s1 [Pred.idIn [d.ID]] =
      [{ b := ⟨d.ID, d.URL, d.Title, d.Excerpt, d.Author, now⟩,
         bc := some ⟨d.ID, d.Title, d.Content, d.HTML⟩ }] := by
    have hp : ∀ r : JoinedRow, ([Pred.idIn [d.ID]].all (holds E s1 r.b)) =
        (fun (b : BookmarkRow) => decide (b.id = d.ID)) r.b := by
      intro r
      simp [holds, eq_comm]
    simp only [whereRows, hp, joinedRows]
    have hfj := filter_joined s1.bookmark_content (fun (b : BookmarkRow) => decide (b.id = d.ID))
      s1.bookmark
    simp only at hfj
    rw [hfj]
    have := filter_unique (fun (b : BookmarkRow) => b.id) s1.bookmark _ hv1.1 hrow
    simp only at this
    rw [this]
    simp only [List.flatMap_cons, List.flatMap_nil, List.append_nil]
    exact joinOne_unique hv1.2.2.2.2.2.1 hcont rfl
  have hsel2 : whereRows E s1 [Pred.idIn [d.ID], Pred.orderLatest] =
      whereRows E s1 [Pred.idIn [d.ID]] := whereRows_append_order E s1 [Pred.idIn [d.ID]]
  have hrows : selectRows E s1 (if ol then [Pred.idIn [d.ID], Pred.orderLatest]
      else [Pred.idIn [d.ID]]) =
      [{ b := ⟨d.ID, d.URL, d.Title, d.Excerpt, d.Author, now⟩,
         bc := some ⟨d.ID, d.Title, d.Content, d.HTML⟩ }] := by
    cases ol
    · simp [selectRows, limitRows, orderRows, hsel]
    · simp [selectRows, limitRows, orderRows, hsel2, hsel]
  have hget : GetBookmarks E s1 ⟨[d.ID], "", [], wc, ol, 0, 0⟩ =
      fetchBookmarks E s1 wc (if ol then [Pred.idIn [d.ID], Pred.orderLatest]
        else [Pred.idIn [d.ID]]) := by
    cases ol <;> simp [GetBookmarks, buildGetBookmarks, bindQuery, Except.map]
  obtain ⟨bs, hbs, hrel⟩ := fetchBookmarks_ok E s1 wc (if ol then [Pred.idIn [d.ID],
      Pred.orderLatest] else [Pred.idIn [d.ID]])
    (by cases ol <;>
      exact stmtError_none E s1 _ (by simp [boundValues]) (by simp [Pred.isKeyword]))
    (by rw [hrows]; intro r hr; simp only [List.mem_singleton] at hr; exact ⟨_, by rw [hr]⟩)
    hv1.2.2.2.2.2.2.1
  rw [hrows] at hrel
  cases hrel with
  | cons hab htl =>
    cases htl
    obtain ⟨c, ts, _, _, hb⟩ := hab
    refine ⟨_, by rw [hget, hbs], ?_⟩
    subst hb
    exact ⟨rfl, rfl, rfl, rfl, rfl, rfl⟩

/-- C2 (witness): two drafts with distinct ids saved in one batch on the empty
database; the second is read back by its id. -/
theorem C2_save_then_read_witness :
    Valid emptyStore ∧
    ∃ bk,
      GetBookmarks exampleEngine
        (SaveBookmarks Char.toLower exampleNow emptyStore
          [exampleDraft 1 "https://example.org" "first" [],
           exampleDraft 2 "https://example.com" "second" []]).2
        ⟨[2], "", [], false, false, 0, 0⟩ = ([bk], none) ∧
      bk.ID = 2 ∧ bk.URL = "https://example.com" ∧ bk.Title = "second" ∧
      bk.Excerpt = "excerpt of second" ∧ bk.Author = "author of second" ∧
      bk.Modified = "2024-01-01 00:00:00" :=
  ⟨by decide,
   C2_save_then_read Char.toLower exampleEngine exampleNow emptyStore
     (SaveBookmarks Char.toLower exampleNow emptyStore
       [exampleDraft 1 "https://example.org" "first" [],
        exampleDraft 2 "https://example.com" "second" []]).2
     [exampleDraft 1 "https://example.org" "first" [],
      exampleDraft 2 "https://example.com" "second" []]
     (SaveBookmarks Char.toLower exampleNow emptyStore
       [exampleDraft 1 "https://example.org" "first" [],
        exampleDraft 2 "https://example.com" "second" []]).1.1
     false false (by decide) (by decide) (by decide)
     (exampleDraft 2 "https://example.com" "second" []) (by decide)⟩

/-- C3 (counterexample): a tag entry that arrives with the nonzero id 7 and is
not flagged removed is returned with id 7 while no association row is
inserted; and a tag entry that arrives with id 0 is resolved to id 1, its
association row is inserted and then deleted again by the removal-flagged
entry with id 1 that follows it in the same draft. -/
theorem C3_counterexample :
    (SaveBookmarks Char.toLower exampleNow emptyStore
      [exampleDraft 1 "https://example.org" "first" [⟨7, "go", false⟩]]).1 =
      ([{ exampleDraft 1 "https://example.org" "first" [⟨7, "go", false⟩] with
          Modified := exampleNow }], none) ∧
    (SaveBookmarks Char.toLower exampleNow emptyStore
      [exampleDraft 1 "https://example.org" "first" [⟨7, "go", false⟩]]).2.bookmark_tag = [] ∧
    (SaveBookmarks Char.toLower exampleNow emptyStore
      [exampleDraft 1 "https://example.org" "first" [⟨0, "go", false⟩, ⟨1, "go", true⟩]]).1 =
      ([{ exampleDraft 1 "https://example.org" "first" [⟨1, "go", false⟩] with
          Modified := exampleNow }], none) ∧
    (SaveBookmarks Char.toLower exampleNow emptyStore
      [exampleDraft 1 "https://example.org" "first"
        [⟨0, "go", false⟩, ⟨1, "go", true⟩]]).2.bookmark_tag = [] := by
  refine ⟨?_, ?_, ?_, ?_⟩ <;> decide

/-- C3, as it holds on the code: on a database that satisfies the schema
constraints, for every batch on which `SaveBookmarks` succeeds, every draft
`d` of it and every tag entry `t` of `d` that is not flagged removed, the
returned draft at the position of `d` carries, at the position of `t` among
the entries not flagged removed, a tag with the name of `t`; an entry that
arrived with a nonzero id keeps that id; an entry that arrived with id 0
carries a nonzero id, and the association row of the draft with that id is
present after the call unless a removal-flagged entry with that tag id
follows in the same draft or stands in a later draft with the same bookmark
id.  When every entry of the batch that is not flagged removed carries a
nonzero id, the call inserts no association row at all. -/
theorem C3_resolved_tags (toLower : Char → Char) (now : String) (s s1 : Store)
    (pre post res : List Bookmark) (d : Bookmark) (tpre tpost : List Tag) (t : Tag)
    (hv : Valid s)
    (h : SaveBookmarks toLower now s (pre ++ d :: post) = ((res, none), s1))
    (hd : d.Tags = tpre ++ t :: tpost) (hdel : t.Deleted = false) :
    (∃ r1 rd r3 n1 rt n3,
      res = r1 ++ rd :: r3 ∧ r1.length = pre.length ∧
      rd.Tags = n1 ++ rt :: n3 ∧ n1.length = (tpre.filter (fun x => !x.Deleted)).length ∧
      rt.Name = t.Name ∧ rt.Deleted = false ∧
      (t.ID ≠ 0 → rt.ID = t.ID) ∧
      (t.ID = 0 → rt.ID ≠ 0 ∧
        ((∀ x ∈ tpost, x.Deleted = true → x.ID ≠ rt.ID) →
         (∀ d2 ∈ post, d2.ID = d.ID → ∀ x ∈ d2.Tags, x.Deleted = true → x.ID ≠ rt.ID) →
         (⟨d.ID, rt.ID⟩ : BookmarkTagRow) ∈ s1.bookmark_tag))) ∧
    ((∀ d2 ∈ pre ++ d :: post, ∀ x ∈ d2.Tags, x.Deleted = false → x.ID ≠ 0) →
      ∀ bt ∈ s1.bookmark_tag, bt ∈ s.bookmark_tag) := by
  refine ⟨?_, ?_⟩
  swap
  · intro hall
    exact saveBooks_induct (fun y => ∀ bt ∈ y.bookmark_tag, bt ∈ s.bookmark_tag) _
      (fun y b y1 b1 hm hp hs bt hbt => hp bt (saveBook_no_insert (hall b hm) hs bt hbt))
      s s1 res (fun bt hbt => hbt) (SaveBookmarks_ok h)
  obtain ⟨sm, r1, r2, h1, h2, hres⟩ :=
    saveBooks_append pre (d :: post) s s1 res (SaveBookmarks_ok h)
  obtain ⟨sa, d1, r3, h3, h4, hr2⟩ := saveBooks_cons h2
  have hvm : Valid sm :=
    saveBooks_induct Valid _ (fun _ _ _ _ _ hp hs => saveBook_valid hp hs) _ _ _ hv h1
  obtain ⟨_, _, _, sb, newTags, hsb, htags, hd1⟩ := saveBook_ok h3
  have hv3 : Valid (stmtInsertBookContent (stmtUpdateBookContent sb d.Title d.Content d.HTML d.ID)
      d.ID d.Title d.Content d.HTML) :=
    stmtInsertBookContent_valid _ _ _ _
      (stmtUpdateBookContent_valid _ _ _ _ (stmtInsertBook_valid hvm hsb))
  rw [hd] at htags
  obtain ⟨x1, n1, n2, g1, g2, hn⟩ := saveTags_append tpre (t :: tpost) _ _ _ htags
  obtain ⟨x2, o, n3, g3, g4, hn2⟩ := saveTags_cons g2
  have hvx1 : Valid x1 :=
    saveTags_induct Valid _ (fun _ _ _ _ _ hp hs => saveTag_valid hp hs) _ _ _ hv3 g1
  have hlen1 := saveBooks_length pre s sm r1 h1
  have hlenn := saveTags_length tpre _ _ _ g1
  have hkeep : ∀ k,
      (⟨d.ID, k⟩ : BookmarkTagRow) ∈ x2.bookmark_tag →
      (∀ x ∈ tpost, x.Deleted = true → x.ID ≠ k) →
      (∀ d2 ∈ post, d2.ID = d.ID → ∀ x ∈ d2.Tags, x.Deleted = true → x.ID ≠ k) →
      (⟨d.ID, k⟩ : BookmarkTagRow) ∈ s1.bookmark_tag := by
    intro k hk hpost1 hpost2
    have hsa : (⟨d.ID, k⟩ : BookmarkTagRow) ∈ sa.bookmark_tag := by
      apply saveTags_keeps hk g4
      intro tag htag hcon
      have := hcon.2
      simp only [BookmarkTagRow.mk.injEq, true_and] at this
      exact hpost1 tag htag hcon.1 this.symm
    refine saveBooks_induct (fun y => (⟨d.ID, k⟩ : BookmarkTagRow) ∈ y.bookmark_tag) post ?_
      sa s1 r3 hsa h4
    intro y b y1 b1 hb hp hs
    apply saveBook_keeps hp hs
    intro tag htag hcon
    have := hcon.2
    simp only [BookmarkTagRow.mk.injEq] at this
    exact hpost2 b hb this.1.symm tag htag hcon.1 this.2.symm
  by_cases hz : t.ID = 0
  · obtain ⟨k, hk, ho, _, hassoc, _⟩ := saveTag_zero hvx1 hz hdel g3
    refine ⟨r1, d1, r3, n1, { t with ID := k }, n3, ?_, hlen1, ?_, hlenn, rfl, hdel,
      fun hne => absurd hz hne, fun _ => ⟨?_, ?_⟩⟩
    · rw [hres, hr2]
    · rw [hd1, hn, hn2, ho]; rfl
    · simp only; omega
    · exact hkeep k hassoc
  · obtain ⟨ho, _⟩ := saveTag_nonzero hz hdel g3
    refine ⟨r1, d1, r3, n1, t, n3, ?_, hlen1, ?_, hlenn, rfl, hdel, fun _ => rfl,
      fun h0 => absurd h0 hz⟩
    · rw [hres, hr2]
    · rw [hd1, hn, hn2, ho]; rfl

/-- C3 (witness): the second draft of a batch carries a removal, a name-only
tag and a tag with an id; the name-only tag is returned with a nonzero id and
its association row is present after the call. -/
theorem C3_resolved_tags_witness :
    Valid emptyStore ∧
    ∃ rt : Tag, rt.Name = "Lean  Prover" ∧ rt.ID ≠ 0 ∧
      (⟨2, rt.ID⟩ : BookmarkTagRow) ∈
        (SaveBookmarks Char.toLower exampleNow emptyStore
          ([exampleDraft 1 "https://example.org" "first" [⟨0, "go", false⟩]] ++
            exampleDraft 2 "https://example.com" "second"
              ([⟨9, "old", true⟩] ++ ⟨0, "Lean  Prover", false⟩ :: [⟨1, "go", false⟩]) ::
            [])).2.bookmark_tag :=
  ⟨by decide, by
    obtain ⟨_, _, _, _, rt, _, _, _, _, _, hname, _, _, hz⟩ :=
      (C3_resolved_tags Char.toLower exampleNow emptyStore
        (SaveBookmarks Char.toLower exampleNow emptyStore
          ([exampleDraft 1 "https://example.org" "first" [⟨0, "go", false⟩]] ++
            exampleDraft 2 "https://example.com" "second"
              ([⟨9, "old", true⟩] ++ ⟨0, "Lean  Prover", false⟩ :: [⟨1, "go", false⟩]) ::
            [])).2
        [exampleDraft 1 "https://example.org" "first" [⟨0, "go", false⟩]] []
        (SaveBookmarks Char.toLower exampleNow emptyStore
          ([exampleDraft 1 "https://example.org" "first" [⟨0, "go", false⟩]] ++
            exampleDraft 2 "https://example.com" "second"
              ([⟨9, "old", true⟩] ++ ⟨0, "Lean  Prover", false⟩ :: [⟨1, "go", false⟩]) ::
            [])).1.1
        (exampleDraft 2 "https://example.com" "second"
          ([⟨9, "old", true⟩] ++ ⟨0, "Lean  Prover", false⟩ :: [⟨1, "go", false⟩]))
        [⟨9, "old", true⟩] [⟨1, "go", false⟩] ⟨0, "Lean  Prover", false⟩
        (by decide) (by decide) (by decide) (by decide)).1
    refine ⟨rt, hname, (hz rfl).1, (hz rfl).2 ?_ ?_⟩
    · intro x hx hd
      simp only [List.mem_singleton] at hx
      subst hx
      cases hd
    · intro d2 hd2
      cases hd2⟩

/-- C4: the normalisation of the code is the canonical form of section 4.2
(lower-cased, every run of white space collapsed to one space, ends trimmed);
on a database that satisfies the schema constraints, when two tag names have
the same canonical form and two bookmarks are each tagged with one of the
names, with tag ID 0, then a successful save of both, in one batch or in two
successive calls, returns both tags with the same nonzero id, and the tag
table then holds exactly one row with that canonical name: the row with that
id and the canonical form as its stored name. -/
theorem C4_same_tag_row (toLower : Char → Char) (now now2 : String) (s : Store)
    (b1 b2 : Bookmark) (n1 n2 : String) (hv : Valid s)
    (hcanon : canonicalTagName toLower n1 = canonicalTagName toLower n2)
    (ht1 : b1.Tags = [⟨0, n1, false⟩]) (ht2 : b2.Tags = [⟨0, n2, false⟩]) :
    (∀ n, normalizeTagName toLower n = canonicalTagName toLower n) ∧
    (∀ res s1, SaveBookmarks toLower now s [b1, b2] = ((res, none), s1) →
      ∃ k, k ≠ 0 ∧ res.map (·.Tags) = [[⟨k, n1, false⟩], [⟨k, n2, false⟩]] ∧
        s1.tag.filter (fun t => decide (t.name = canonicalTagName toLower n1)) =
          [⟨k, canonicalTagName toLower n1⟩]) ∧
    (∀ r1 sA r2 sB, SaveBookmarks toLower now s [b1] = ((r1, none), sA) →
      SaveBookmarks toLower now2 sA [b2] = ((r2, none), sB) →
      ∃ k, k ≠ 0 ∧ r1.map (·.Tags) = [[⟨k, n1, false⟩]] ∧
        r2.map (·.Tags) = [[⟨k, n2, false⟩]] ∧
        sB.tag.filter (fun t => decide (t.name = canonicalTagName toLower n1)) =
          [⟨k, canonicalTagName toLower n1⟩]) := by
  refine ⟨normalizeTagName_eq_canonical toLower, ?_⟩
  simp only [← normalizeTagName_eq_canonical] at hcanon ⊢
  have hfilter : ∀ (x : Store) (k : Int), Valid x →
      (⟨k, normalizeTagName toLower n1⟩ : TagRow) ∈ x.tag →
      x.tag.filter (fun t => decide (t.name = normalizeTagName toLower n1)) =
        [⟨k, normalizeTagName toLower n1⟩] := by
    intro x k hvx hmem
    exact filter_unique (fun (t : TagRow) => t.name) x.tag _ hvx.2.2.2.1 hmem
  constructor
  · intro res s1 h
    obtain ⟨xa, d1, r2, g1, g2, hres⟩ := saveBooks_cons (SaveBookmarks_ok h)
    obtain ⟨xb, d2, r3, g3, g4, hr2⟩ := saveBooks_cons g2
    simp only [saveBooks, Except.ok.injEq, Prod.mk.injEq] at g4
    obtain ⟨hx, hr3⟩ := g4
    subst hx hr3
    obtain ⟨hva, k1, hk1, hd1, hrow1, _⟩ := saveBook_single_tag hv ht1 g1
    obtain ⟨hvb, k2, _, hd2, hrow2, huniq⟩ := saveBook_single_tag hva ht2 g3
    have hk : k2 = k1 := huniq k1 (hcanon ▸ hrow1)
    subst hk
    refine ⟨k2, by omega, ?_, hfilter xb k2 hvb (hcanon ▸ hrow2)⟩
    rw [hres, hr2]
    simp [hd1, hd2]
  · intro r1 sA r2 sB hA hB
    obtain ⟨xa, d1, ra, g1, g2, hres⟩ := saveBooks_cons (SaveBookmarks_ok hA)
    simp only [saveBooks, Except.ok.injEq, Prod.mk.injEq] at g2
    obtain ⟨hx, hra⟩ := g2
    subst hx hra
    obtain ⟨xb, d2, rb, g3, g4, hr2⟩ := saveBooks_cons (SaveBookmarks_ok hB)
    simp only [saveBooks, Except.ok.injEq, Prod.mk.injEq] at g4
    obtain ⟨hx, hrb⟩ := g4
    subst hx hrb
    obtain ⟨hva, k1, hk1, hd1, hrow1, _⟩ := saveBook_single_tag hv ht1 g1
    obtain ⟨hvb, k2, _, hd2, hrow2, huniq⟩ := saveBook_single_tag hva ht2 g3
    have hk : k2 = k1 := huniq k1 (hcanon ▸ hrow1)
    subst hk
    refine ⟨k2, by omega, ?_, ?_, hfilter xb k2 hvb (hcanon ▸ hrow2)⟩
    · rw [hres]; simp [hd1]
    · rw [hr2]; simp [hd2]

/-- C4 (witness): the names "Go Lang" and "go  lang" on two bookmarks saved in
one batch on the empty database: both tags get the same id and the tag table
holds the single row with that id and the name "go lang". -/
theorem C4_same_tag_row_witness :
    Valid emptyStore ∧
    canonicalTagName Char.toLower "Go Lang" = canonicalTagName Char.toLower "go  lang" ∧
    canonicalTagName Char.toLower "Go Lang" = "go lang" ∧
    ∃ k, k ≠ 0 ∧
      (SaveBookmarks Char.toLower exampleNow emptyStore
        [exampleDraft 1 "https://example.org" "first" [⟨0, "Go Lang", false⟩],
         exampleDraft 2 "https://example.com" "second" [⟨0, "go  lang", false⟩]]).1.1.map
        (·.Tags) = [[⟨k, "Go Lang", false⟩], [⟨k, "go  lang", false⟩]] ∧
      (SaveBookmarks Char.toLower exampleNow emptyStore
        [exampleDraft 1 "https://example.org" "first" [⟨0, "Go Lang", false⟩],
         exampleDraft 2 "https://example.com" "second" [⟨0, "go  lang", false⟩]]).2.tag.filter
        (fun t => decide (t.name = canonicalTagName Char.toLower "Go Lang")) =
        [⟨k, canonicalTagName Char.toLower "Go Lang"⟩] :=
  ⟨by decide, by decide, by decide,
   (C4_same_tag_row Char.toLower exampleNow exampleNow emptyStore
     (exampleDraft 1 "https://example.org" "first" [⟨0, "Go Lang", false⟩])
     (exampleDraft 2 "https://example.com" "second" [⟨0, "go  lang", false⟩])
     "Go Lang" "go  lang" (by decide) (by decide) (by decide) (by decide)).2.1
     (SaveBookmarks Char.toLower exampleNow emptyStore
        [exampleDraft 1 "https://example.org" "first" [⟨0, "Go Lang", false⟩],
         exampleDraft 2 "https://example.com" "second" [⟨0, "go  lang", false⟩]]).1.1
     (SaveBookmarks Char.toLower exampleNow emptyStore
        [exampleDraft 1 "https://example.org" "first" [⟨0, "Go Lang", false⟩],
         exampleDraft 2 "https://example.com" "second" [⟨0, "go  lang", false⟩]]).2
     (by decide)⟩

/-- C5: in a database that satisfies the schema constraints, re-saving the
bookmark of row `r` (a valid draft with the id and URL of `r`) with a single
tag entry flagged removed and carrying tag id `t` succeeds, returns the draft
with an empty tag list, leaves the association table equal to the previous
one without the row `(r.id, t)`, every other row kept in place, and leaves
the tag table unchanged. -/
theorem C5_remove_one_association (toLower : Char → Char) (now : String) (s : Store)
    (r : BookmarkRow) (d : Bookmark) (t : Int) (name : String)
    (hv : Valid s) (hr : r ∈ s.bookmark)
    (hid : d.ID = r.id) (hurl : d.URL = r.url)
    (h0 : d.ID ≠ 0) (hu : d.URL ≠ "") (ht : d.Title ≠ "")
    (htags : d.Tags = [⟨t, name, true⟩]) :
    ∃ s1, SaveBookmarks toLower now s [d] =
        (([{ d with Modified := now, Tags := [] }], none), s1) ∧
      s1.bookmark_tag =
        s.bookmark_tag.filter (fun bt => decide (bt ≠ ⟨r.id, t⟩)) ∧
      s1.tag = s.tag := by
  have hex : ∃ x ∈ s.bookmark, x.id = d.ID := ⟨r, hr, hid.symm⟩
  have hnc : ¬ ∃ x ∈ s.bookmark, ¬x.id = d.ID ∧ x.url = d.URL := by
    rintro ⟨x, hx, hxp⟩
    have : x = r := List.inj_on_of_nodup_map hv.2.1 hx hr (hxp.2.trans hurl)
    exact hxp.1 (this ▸ hid.symm)
  cases hins : stmtInsertBook s d.ID d.URL d.Title d.Excerpt d.Author now
      d.URL d.Title d.Excerpt d.Author now with
  | error e =>
    simp [stmtInsertBook, hex, hnc] at hins
  | ok sa =>
    obtain ⟨_, a2, a3, _, _⟩ := stmtInsertBook_spec hins
    obtain ⟨_, _, c3, c4, _⟩ := shadow_spec sa d.ID d.Title d.Content d.HTML
    refine ⟨stmtDeleteBookTag (stmtInsertBookContent
      (stmtUpdateBookContent sa d.Title d.Content d.HTML d.ID) d.ID d.Title d.Content d.HTML)
      d.ID t, ?_, ?_, ?_⟩
    · simp [SaveBookmarks, saveBooks, saveBook, h0, hu, ht, hins, htags, saveTags, saveTag]
    · simp only [stmtDeleteBookTag, c4, a3]
      apply List.filter_congr
      intro bt _
      rcases bt with ⟨b1, t1⟩
      by_cases hb : b1 = d.ID <;> by_cases htt : t1 = t <;> simp [hb, htt, hid]
    · simp only [stmtDeleteBookTag, c3, a2]

/-- C5 (witness): bookmark 1 carries the tags 1 and 2; it is saved again with
tag 1 flagged removed, which leaves the association with tag 2 only. -/
theorem C5_remove_one_association_witness :
    Valid (SaveBookmarks Char.toLower exampleNow emptyStore
      [exampleDraft 1 "https://example.org" "first" [⟨0, "go", false⟩, ⟨0, "lean", false⟩]]).2 ∧
    ∃ s1, SaveBookmarks Char.toLower exampleNow
        (SaveBookmarks Char.toLower exampleNow emptyStore
          [exampleDraft 1 "https://example.org" "first"
            [⟨0, "go", false⟩, ⟨0, "lean", false⟩]]).2
        [exampleDraft 1 "https://example.org" "first" [⟨1, "go", true⟩]] =
        (([{ exampleDraft 1 "https://example.org" "first" [⟨1, "go", true⟩] with
              Modified := exampleNow, Tags := [] }], none), s1) ∧
      s1.bookmark_tag = [⟨1, 2⟩] ∧
      s1.tag = [⟨1, "go"⟩, ⟨2, "lean"⟩] :=
  ⟨by decide,
   C5_remove_one_association Char.toLower exampleNow
     (SaveBookmarks Char.toLower exampleNow emptyStore
       [exampleDraft 1 "https://example.org" "first" [⟨0, "go", false⟩, ⟨0, "lean", false⟩]]).2
     ⟨1, "https://example.org", "first", "excerpt of first", "author of first", exampleNow⟩
     (exampleDraft 1 "https://example.org" "first" [⟨1, "go", true⟩]) 1 "go"
     (by decide) (by decide) (by decide) (by decide) (by decide) (by decide) (by decide)
     (by decide)⟩

/-- C6: on a database that satisfies the schema constraints and the lifecycle
invariant (as every reachable database does), for every options value,
`GetBookmarksCount(options)` equals the length of the list `GetBookmarks`
returns on the same options with `Limit` and `Offset` reset to zero; the two
calls fail together or succeed together (a failed count is 0 and a failed
list is nil); and without the ORDER BY fragment both builders give the same
fragments and the same arguments in the same order. -/
theorem C6_count_matches_list (E : Engine) (s : Store) (opts : GetBookmarksOptions)
    (hv : Valid s) (hc : Consistent s) :
    buildGetBookmarks { opts with OrderLatest := false, Limit := 0, Offset := 0 } =
      buildGetBookmarksCount opts ∧
    ((GetBookmarksCount E s opts).2 = none ↔
      (GetBookmarks E s { opts with Limit := 0, Offset := 0 }).2 = none) ∧
    (GetBookmarksCount E s opts).1 =
      ((GetBookmarks E s { opts with Limit := 0, Offset := 0 }).1.length : Int) := by
  have hshadow := hc.1
  have htags := hv.2.2.2.2.2.2.1
  obtain ⟨ps, hps, hlim, hlim2, hnolim, hps2⟩ := build_bind opts
  have hget : GetBookmarks E s { opts with Limit := 0, Offset := 0 } =
      fetchBookmarks E s opts.WithContent
        (if opts.OrderLatest then ps ++ [Pred.orderLatest] else ps) := by
    simp [GetBookmarks, hps2]
  have herr : stmtError E s (if opts.OrderLatest then ps ++ [Pred.orderLatest] else ps) =
      stmtError E s ps := by
    split
    · exact stmtError_append_order E s ps hnolim
    · rfl
  have hbuild : buildGetBookmarks { opts with OrderLatest := false, Limit := 0, Offset := 0 } =
      buildGetBookmarksCount opts := by
    obtain ⟨ids, kw, tags, wc, ol, lim, off⟩ := opts
    simp [buildGetBookmarks, buildGetBookmarksCount]
  cases hse : stmtError E s ps with
  | some e =>
    have hcount : GetBookmarksCount E s opts = (0, some (.errorf "failed to fetch count")) := by
      simp [GetBookmarksCount, hps, hse]
    have hlist : GetBookmarks E s { opts with Limit := 0, Offset := 0 } =
        ([], some (.errorf "failed to fetch data")) := by
      rw [hget]
      unfold fetchBookmarks
      rw [herr, hse]
    refine ⟨hbuild, ?_, ?_⟩
    · rw [hcount, hlist]; simp
    · rw [hcount, hlist]; simp
  | none =>
    have hcount : GetBookmarksCount E s opts = (((whereRows E s ps).length : Int), none) := by
      simp [GetBookmarksCount, hps, hse]
    obtain ⟨bs, hbs, hrel⟩ := fetchBookmarks_ok E s opts.WithContent
      (if opts.OrderLatest then ps ++ [Pred.orderLatest] else ps) (herr.trans hse)
      (selectRows_some hshadow) htags
    have hlen : bs.length = (whereRows E s ps).length := by
      rw [← hrel.length_eq]
      unfold selectRows
      split
      · rw [hlim2, length_orderRows, whereRows_append_order]
      · rw [hlim, length_orderRows]
    refine ⟨hbuild, ?_, ?_⟩
    · rw [hcount, hget, hbs]
    · rw [hcount, hget, hbs, hlen]

/-- C6 (witness): a database holding one saved bookmark.  Queried with an id
filter, a tag filter, ordering and pagination, the count is 1; queried with
the keyword `AND`, a malformed `MATCH` expression for the example engine, the
count fails and so does the list. -/
theorem C6_count_matches_list_witness :
    Valid (SaveBookmarks Char.toLower exampleNow emptyStore
      [exampleDraft 1 "https://example.org" "first" [⟨0, "Go Lang", false⟩]]).2 ∧
    Consistent (SaveBookmarks Char.toLower exampleNow emptyStore
      [exampleDraft 1 "https://example.org" "first" [⟨0, "Go Lang", false⟩]]).2 ∧
    (GetBookmarksCount exampleEngine
      (SaveBookmarks Char.toLower exampleNow emptyStore
        [exampleDraft 1 "https://example.org" "first" [⟨0, "Go Lang", false⟩]]).2
      ⟨[1], "", ["go lang"], false, true, 5, 0⟩).1 = 1 ∧
    (GetBookmarksCount exampleEngine
      (SaveBookmarks Char.toLower exampleNow emptyStore
        [exampleDraft 1 "https://example.org" "first" [⟨0, "Go Lang", false⟩]]).2
      ⟨[], "AND", [], false, true, 5, 0⟩).2 ≠ none ∧
    (GetBookmarks exampleEngine
      (SaveBookmarks Char.toLower exampleNow emptyStore
        [exampleDraft 1 "https://example.org" "first" [⟨0, "Go Lang", false⟩]]).2
      ⟨[], "AND", [], false, true, 0, 0⟩).2 ≠ none :=
  ⟨by decide, by decide,
   ((C6_count_matches_list exampleEngine _
      ⟨[1], "", ["go lang"], false, true, 5, 0⟩ (by decide) (by decide)).2.2).trans
     (by decide),
   by decide,
   fun hnone =>
     absurd ((C6_count_matches_list exampleEngine
       (SaveBookmarks Char.toLower exampleNow emptyStore
         [exampleDraft 1 "https://example.org" "first" [⟨0, "Go Lang", false⟩]]).2
       ⟨[], "AND", [], false, true, 5, 0⟩ (by decide) (by decide)).2.1.2 hnone)
       (by decide)⟩

/-- C7 (counterexample): with an empty id set and an empty tag-name set in the
options, `GetBookmarks` returns the one bookmark of the database and
`GetBookmarksCount` returns 1, not an empty list and 0. -/
theorem C7_counterexample :
    (GetBookmarks exampleEngine
      (SaveBookmarks Char.toLower "2024-01-01 00:00:00" emptyStore
        [{ ID := 1, URL := "https://example.org", Title := "first", Excerpt := "", Author := "",
           Modified := "", Content := "one", HTML := "", HasContent := false,
           Tags := [] }]).2
      ⟨[], "", [], false, false, 0, 0⟩) =
      ([{ ID := 1, URL := "https://example.org", Title := "first", Excerpt := "", Author := "",
          Modified := "2024-01-01 00:00:00", Content := "", HTML := "", HasContent := true,
          Tags := [] }], none) ∧
    (GetBookmarksCount exampleEngine
      (SaveBookmarks Char.toLower "2024-01-01 00:00:00" emptyStore
        [{ ID := 1, URL := "https://example.org", Title := "first", Excerpt := "", Author := "",
           Modified := "", Content := "one", HTML := "", HasContent := false,
           Tags := [] }]).2
      ⟨[], "", [], false, false, 0, 0⟩) = (1, none) := by
  constructor <;> decide

/-- C7, as it holds on the code: an empty id set or tag-name set in the options is an absent
filter (the builders test `len(...) > 0`): with an empty id set, an empty
tag-name set and no keyword, on a database that satisfies the schema
constraints and the lifecycle invariant, `GetBookmarksCount` returns the
number of bookmark rows and `GetBookmarks` without pagination returns one
bookmark for every bookmark row. -/
theorem C7_empty_set_is_no_filter (E : Engine) (s : Store) (wc ol : Bool) (limit offset : Int)
    (hv : Valid s) (hc : Consistent s) :
    GetBookmarksCount E s ⟨[], "", [], wc, ol, limit, offset⟩ = ((s.bookmark.length : Int), none) ∧
    (GetBookmarks E s ⟨[], "", [], wc, ol, 0, 0⟩).2 = none ∧
    ((GetBookmarks E s ⟨[], "", [], wc, ol, 0, 0⟩).1.map (·.ID)).Perm (s.bookmark.map (·.id)) := by
  have hjoin : (joinedRows s).map (·.b) = s.bookmark :=
    joined_map_b s.bookmark_content hv.2.2.2.2.2.1 s.bookmark hc.1
  have hlen : (joinedRows s).length = s.bookmark.length := by
    rw [← hjoin, List.length_map]
  have hw1 : whereRows E s [] = joinedRows s := by
    simp [whereRows]
  have hw2 : whereRows E s [Pred.orderLatest] = joinedRows s := by
    simp [whereRows, holds]
  have he1 : stmtError E s [] = none :=
    stmtError_none E s [] (by simp [boundValues]) (by simp)
  have he2 : stmtError E s [Pred.orderLatest] = none :=
    stmtError_none E s _ (by simp [boundValues]) (by simp [Pred.isKeyword])
  refine ⟨?_, ?_⟩
  · simp [GetBookmarksCount, buildGetBookmarksCount, bindQuery, hw1, hlen, he1]
  · have hget : GetBookmarks E s ⟨[], "", [], wc, ol, 0, 0⟩ =
        fetchBookmarks E s wc (if ol then [Pred.orderLatest] else []) := by
      cases ol <;> simp [GetBookmarks, buildGetBookmarks, bindQuery, Except.map]
    obtain ⟨bs, hbs, hrel⟩ := fetchBookmarks_ok E s wc (if ol then [Pred.orderLatest] else [])
      (by cases ol <;> simp [he1, he2])
      (selectRows_some hc.1) hv.2.2.2.2.2.2.1
    rw [hget, hbs]
    refine ⟨rfl, ?_⟩
    simp only [fetched_ids hrel]
    have hperm : (selectRows E s (if ol then [Pred.orderLatest] else [])).Perm (joinedRows s) := by
      cases ol
      · simp [selectRows, limitRows, orderRows, hw1]
      · simp only [selectRows, limitRows, orderRows, hw2, if_true]
        simp only [List.contains_cons, beq_self_eq_true, Bool.true_or, if_true]
        exact List.perm_insertionSort _ _
    have := hperm.map (fun r => r.b.id)
    rw [← hjoin, List.map_map]
    exact this

/-- C7 (witness): a database holding one bookmark, queried with empty sets. -/
theorem C7_empty_set_is_no_filter_witness :
    Valid (SaveBookmarks Char.toLower "2024-01-01 00:00:00" emptyStore
      [{ ID := 1, URL := "https://example.org", Title := "first", Excerpt := "", Author := "",
         Modified := "", Content := "one", HTML := "", HasContent := false,
         Tags := [] }]).2 ∧
    Consistent (SaveBookmarks Char.toLower "2024-01-01 00:00:00" emptyStore
      [{ ID := 1, URL := "https://example.org", Title := "first", Excerpt := "", Author := "",
         Modified := "", Content := "one", HTML := "", HasContent := false,
         Tags := [] }]).2 ∧
    GetBookmarksCount exampleEngine
      (SaveBookmarks Char.toLower "2024-01-01 00:00:00" emptyStore
        [{ ID := 1, URL := "https://example.org", Title := "first", Excerpt := "", Author := "",
           Modified := "", Content := "one", HTML := "", HasContent := false,
           Tags := [] }]).2
      ⟨[], "", [], false, false, 0, 0⟩ = (1, none) :=
  ⟨by decide, by decide,
   (C7_empty_set_is_no_filter exampleEngine _ false false 0 0
      (by decide) (by decide)).1⟩

/-- C8: `DeleteBookmarks` with no ids leaves the shadow, association and
bookmark tables empty; with a non-empty id list it removes from each of the
three tables exactly the rows whose bookmark id is in the list, keeping every
other row; the tag table is unchanged and the error is nil in both cases. -/
theorem C8_delete_frame (s : Store) (id : Int) (ids : List Int) :
    (DeleteBookmarks s []).2.bookmark_content = [] ∧
    (DeleteBookmarks s []).2.bookmark_tag = [] ∧
    (DeleteBookmarks s []).2.bookmark = [] ∧
    (DeleteBookmarks s []).2.tag = s.tag ∧
    (DeleteBookmarks s []).1 = none ∧
    (DeleteBookmarks s (id :: ids)).2.bookmark =
      s.bookmark.filter (fun r => decide (r.id ∉ id :: ids)) ∧
    (DeleteBookmarks s (id :: ids)).2.bookmark_tag =
      s.bookmark_tag.filter (fun r => decide (r.bookmark_id ∉ id :: ids)) ∧
    (DeleteBookmarks s (id :: ids)).2.bookmark_content =
      s.bookmark_content.filter (fun c => decide (c.docid ∉ id :: ids)) ∧
    (DeleteBookmarks s (id :: ids)).2.tag = s.tag ∧
    (DeleteBookmarks s (id :: ids)).1 = none := by
  refine ⟨rfl, rfl, rfl, rfl, rfl, ?_, ?_, ?_, ?_, ?_⟩
  all_goals simp only [DeleteBookmarks, List.length_cons, Nat.succ_ne_zero, if_false,
    Nat.add_one_ne_zero, foldl_deleteOne]
  all_goals first
    | rfl
    | (apply List.filter_congr; intro x _; simp)

/-- C9 (counterexample): `CreateNewID` on the association table, which is a
table of the store without an `id` column, returns -1 with an error, and so
does `CreateNewID("bookmark")` after a bookmark with the largest 64-bit id
was saved. -/
theorem C9_counterexample :
    CreateNewID emptyStore "bookmark_tag" = (-1, some (.engine "no such table or column")) ∧
    CreateNewID
      (SaveBookmarks Char.toLower "2024-01-01 00:00:00" emptyStore
        [{ ID := 9223372036854775807, URL := "https://example.org", Title := "t",
           Excerpt := "", Author := "", Modified := "", Content := "", HTML := "",
           HasContent := false, Tags := [] }]).2 "bookmark" =
      (-1, some (.engine "converting driver.Value type float64 to a int")) := by
  constructor <;> decide

/-- C9, as it holds on the code: for a table with an `id` column (`idColumn` answers for the
names account, bookmark and tag) whose ids are all below the largest 64-bit
integer, `CreateNewID` returns 1 with a nil error when the table is empty and
otherwise the largest id plus one with a nil error; the returned id is the id
of no existing row. -/
theorem C9_createNewID (s : Store) (table : String) (ids : List Int)
    (hcol : idColumn s table = some ids) (hbound : ∀ i ∈ ids, i < maxInt64) :
    (ids = [] → CreateNewID s table = (1, none)) ∧
    (∀ m ∈ ids, (∀ i ∈ ids, i ≤ m) → CreateNewID s table = (m + 1, none)) ∧
    (CreateNewID s table).2 = none ∧
    (CreateNewID s table).1 ∉ ids := by
  have hmax : ∀ m, ids.max? = some m → CreateNewID s table = (m + 1, none) := by
    intro m hm
    have hlt := hbound m (max?_spec.1 hm).1
    have : m + 1 ≤ maxInt64 := by omega
    simp [CreateNewID, hcol, hm, this]
  refine ⟨?_, ?_, ?_, ?_⟩
  · intro h
    subst h
    simp [CreateNewID, hcol]
  · intro m hm hle
    exact hmax m (max?_spec.2 ⟨hm, hle⟩)
  · cases hm : ids.max? with
    | none => simp [CreateNewID, hcol, hm]
    | some m => rw [hmax m hm]
  · cases hm : ids.max? with
    | none =>
      have : ids = [] := List.max?_eq_none_iff.1 hm
      subst this
      simp
    | some m =>
      rw [hmax m hm]
      intro hin
      have := (max?_spec.1 hm).2 _ hin
      simp only at this
      omega

/-- C9 (witness): the empty bookmark table gives 1, and after saving a
bookmark with id 5 the bookmark table gives 6. -/
theorem C9_createNewID_witness :
    idColumn emptyStore "bookmark" = some [] ∧
    CreateNewID emptyStore "bookmark" = (1, none) ∧
    CreateNewID
      (SaveBookmarks Char.toLower "2024-01-01 00:00:00" emptyStore
        [{ ID := 5, URL := "https://example.org", Title := "t",
           Excerpt := "", Author := "", Modified := "", Content := "", HTML := "",
           HasContent := false, Tags := [] }]).2 "bookmark" = (6, none) :=
  ⟨by decide,
   (C9_createNewID emptyStore "bookmark" [] (by decide) (by decide)).1 rfl,
   (C9_createNewID _ "bookmark" [5] (by decide) (by decide)).2.1 5 (by decide) (by decide)⟩

/-- C10 (counterexample): a batch of two drafts with the same id and URL is
saved without error, and the shadow row then holds the title, content and
markup of the second draft, not those of the first. -/
theorem C10_counterexample :
    SaveBookmarks Char.toLower "2024-01-01 00:00:00" emptyStore
      [{ ID := 1, URL := "https://example.org", Title := "first", Excerpt := "", Author := "",
         Modified := "", Content := "one", HTML := "<p>one</p>", HasContent := false,
         Tags := [] },
       { ID := 1, URL := "https://example.org", Title := "second", Excerpt := "", Author := "",
         Modified := "", Content := "two", HTML := "<p>two</p>", HasContent := false,
         Tags := [] }] =
    (([{ ID := 1, URL := "https://example.org", Title := "first", Excerpt := "", Author := "",
         Modified := "2024-01-01 00:00:00", Content := "one", HTML := "<p>one</p>",
         HasContent := false, Tags := [] },
       { ID := 1, URL := "https://example.org", Title := "second", Excerpt := "", Author := "",
         Modified := "2024-01-01 00:00:00", Content := "two", HTML := "<p>two</p>",
         HasContent := false, Tags := [] }], none),
     { account := [],
       bookmark := [⟨1, "https://example.org", "second", "", "", "2024-01-01 00:00:00"⟩],
       tag := [], bookmark_tag := [],
       bookmark_content := [⟨1, "second", "two", "<p>two</p>"⟩] }) := by
  decide

/-- C10, as it holds on the code: the lifecycle invariant (a bookmark row with id i exists if
and only if a shadow row keyed by i exists, every bookmark id is nonzero,
every association row refers to an existing bookmark row) holds in the empty
database, is preserved by every `SaveBookmarks` call, successful or failed,
and by every `DeleteBookmarks` call, and holds in every reachable database;
after a successful save the shadow row of each saved draft whose id is not
reused by a later draft of the batch exists and holds that draft's title,
content and markup. -/
theorem C10_lifecycle_invariant (toLower : Char → Char) :
    Consistent emptyStore ∧
    (∀ now s bs, Consistent s → Consistent (SaveBookmarks toLower now s bs).2) ∧
    (∀ s ids, Consistent s → Consistent (DeleteBookmarks s ids).2) ∧
    (∀ s, Reachable toLower s →
      Consistent s ∧
      ∀ i : Int, i ∈ s.bookmark.map (·.id) ↔ i ∈ s.bookmark_content.map (·.docid)) ∧
    (∀ now s pre d post res s1,
      SaveBookmarks toLower now s (pre ++ d :: post) = ((res, none), s1) →
      (∀ x ∈ post, x.ID ≠ d.ID) →
      (⟨d.ID, d.Title, d.Content, d.HTML⟩ : ContentRow) ∈ s1.bookmark_content ∧
      ∀ c ∈ s1.bookmark_content, c.docid = d.ID → c = ⟨d.ID, d.Title, d.Content, d.HTML⟩) := by
  refine ⟨by decide, fun now s bs hc => SaveBookmarks_consistent toLower now s bs hc,
    fun s ids hc => DeleteBookmarks_consistent s ids hc, ?_, ?_⟩
  · intro s hr
    have hc := reachable_consistent hr
    refine ⟨hc, fun i => ⟨?_, ?_⟩⟩
    · intro hi
      obtain ⟨b, hb, hbi⟩ := List.mem_map.1 hi
      exact hbi ▸ hc.1 b hb
    · intro hi
      obtain ⟨c, hcm, hci⟩ := List.mem_map.1 hi
      exact hci ▸ hc.2.1 c hcm
  · intro now s pre d post res s1 h hpost
    obtain ⟨sm, r1, r2, _, h2, _⟩ := saveBooks_append pre (d :: post) s s1 res (SaveBookmarks_ok h)
    obtain ⟨sa, d1, r3, h3, h4, _⟩ := saveBooks_cons h2
    obtain ⟨_, _, hx, _, _, _⟩ := saveBook_spec h3
    refine saveBooks_induct (fun x =>
        (⟨d.ID, d.Title, d.Content, d.HTML⟩ : ContentRow) ∈ x.bookmark_content ∧
        ∀ c ∈ x.bookmark_content, c.docid = d.ID → c = ⟨d.ID, d.Title, d.Content, d.HTML⟩)
      post ?_ sa s1 r3 ⟨(hx _).2 (Or.inr rfl), ?_⟩ h4
    · intro x b x1 b1 hb hp hs
      obtain ⟨_, _, hx2, _, _, _⟩ := saveBook_spec hs
      have hne := hpost b hb
      refine ⟨(hx2 _).2 (Or.inl ⟨hp.1, fun heq => hne heq.symm⟩), ?_⟩
      intro c hc hcd
      rcases (hx2 c).1 hc with ⟨hc1, _⟩ | hc1
      · exact hp.2 c hc1 hcd
      · subst hc1
        exact absurd hcd hne
    · intro c hc hcd
      rcases (hx c).1 hc with ⟨_, hne⟩ | hc1
      · exact absurd hcd hne
      · exact hc1

/-- C10 (witness): the invariant carried through a save on the empty
database, and the shadow row of the draft saved there. -/
theorem C10_lifecycle_invariant_witness :
    Consistent emptyStore ∧
    Consistent (SaveBookmarks Char.toLower "2024-01-01 00:00:00" emptyStore
      [{ ID := 1, URL := "https://example.org", Title := "first", Excerpt := "", Author := "",
         Modified := "", Content := "one", HTML := "<p>one</p>", HasContent := false,
         Tags := [⟨0, "Go Lang", false⟩] }]).2 :=
  ⟨by decide, (C10_lifecycle_invariant Char.toLower).2.1 _ _ _ (by decide)⟩

end Shiori
